import Mathlib

/-!
Verification of the resumable-pagination core of the GA4GH reference server
(`ga4gh/backend.py`): the page-token codec, the interval iterator with its
search-anchor/distance resume protocol, flat pagination over indexed
collections, the search-request orchestration loop, the variant-effect
post-filter, and (modelled from the specification, since the module itself is
not among the sources) the compound-identifier parser.

Python values are embedded shallowly: machine-level `int` is `Int`
(arbitrary precision in Python 2, so no wrap-around), strings are `String`
over explicit `List Char` manipulation, fallible code returns `Except`, and
generators are materialised as lists of yielded values (faithful here because
after construction the iterators can only raise `StopIteration`, which is the
normal end of a generator).
-/

set_option linter.unusedVariables false

namespace GA4GH

/-- Exceptions raised by the modelled code paths (`ga4gh/exceptions.py`
types, plus Python's own `StopIteration` and `TypeError` control signals). -/
inductive GAError where
  | BadPageTokenException (msg : String)
  | BadPageSizeException (pageSize : Int)
  | ObjectWithIdNotFoundException (idStr : String)
  | BadIdentifierException
  | StopIteration
  | PyTypeError
  deriving Repr, DecidableEq

/-- Decidable equality of `Except` results, used to settle concrete runs. -/
instance exceptDecEq {ε α : Type} [DecidableEq ε] [DecidableEq α] :
    DecidableEq (Except ε α) := fun x y =>
  match x, y with
  | .error a, .error b =>
    if h : a = b then .isTrue (by rw [h])
    else .isFalse (by intro hc; cases hc; exact h rfl)
  | .error _, .ok _ => .isFalse (by intro hc; cases hc)
  | .ok _, .error _ => .isFalse (by intro hc; cases hc)
  | .ok a, .ok b =>
    if h : a = b then .isTrue (by rw [h])
    else .isFalse (by intro hc; cases hc; exact h rfl)

/-! ## Decimal integers: the model of Python `str(int)` and `int(str)` -/

/-- The character for a single decimal digit (only used for `d < 10`). -/
def digitChar (d : Nat) : Char := Char.ofNat (48 + d)

/-- Inverse of `digitChar`: the value of a decimal digit character. -/
def charDigit? (c : Char) : Option Nat :=
  if 48 ≤ c.toNat ∧ c.toNat ≤ 57 then some (c.toNat - 48) else none

/-- Little-endian decimal digits of `n`, with explicit fuel (any
`fuel ≥ n` is enough, see `pyDigitsVal_natDigitsRevFuel`). -/
def natDigitsRevFuel : Nat → Nat → List Nat
  | 0, _ => []
  | fuel + 1, n => if n = 0 then [] else n % 10 :: natDigitsRevFuel fuel (n / 10)

/-- Decimal representation of a natural number, as Python `str` renders it. -/
def natChars (n : Nat) : List Char :=
  if n = 0 then ['0'] else ((natDigitsRevFuel n n).map digitChar).reverse

/-- Decimal representation of an integer, as Python `str` renders it. -/
def intChars (i : Int) : List Char :=
  if i < 0 then '-' :: natChars i.natAbs else natChars i.toNat

/-- `str(i)` for a Python integer. -/
def intToString (i : Int) : String := String.mk (intChars i)

/-- Whitespace as stripped by Python `int(str)` (space, tab, newline,
carriage return, vertical tab, form feed). -/
def isPySpace (c : Char) : Bool :=
  c = ' ' || c = '\t' || c = '\n' || c = '\r' || c.toNat = 11 || c.toNat = 12

/-- Strip leading and trailing whitespace, as Python `int(str)` does. -/
def pyTrim (cs : List Char) : List Char :=
  ((cs.dropWhile isPySpace).reverse.dropWhile isPySpace).reverse

/-- Value of a big-endian digit list. -/
def pyDigitsVal (ds : List Nat) : Nat := ds.foldl (fun a d => 10 * a + d) 0

/-- Apply a fallible conversion to every element, as Python's eager
`map(int, tokens)` does: `none` as soon as one element fails. -/
def optionMapAll {a b : Type} (f : a → Option b) : List a → Option (List b)
  | [] => some []
  | x :: xs =>
    match f x, optionMapAll f xs with
    | some y, some ys => some (y :: ys)
    | _, _ => none

/-- Parse a non-empty run of decimal digits (no sign). -/
def pyIntCore? (cs : List Char) : Option Nat :=
  match cs with
  | [] => none
  | _ => (optionMapAll charDigit? cs).map pyDigitsVal

/-- The model of Python `int(s)` on a character list: strip whitespace,
optional single sign, then a non-empty all-digit run; `none` models the
`ValueError` raised otherwise. -/
def pyIntChars? (cs : List Char) : Option Int :=
  match pyTrim cs with
  | '-' :: rest => (pyIntCore? rest).map (fun n => -(n : Int))
  | '+' :: rest => (pyIntCore? rest).map (fun n => (n : Int))
  | t => (pyIntCore? t).map (fun n => (n : Int))

/-- The model of Python `s.split(sep)` for a one-character separator:
`"".split(sep) = [""]`, empty segments are kept. -/
def splitOnChar (sep : Char) : List Char → List (List Char)
  | [] => [[]]
  | c :: cs =>
    if c = sep then [] :: splitOnChar sep cs
    else
      match splitOnChar sep cs with
      | [] => [[c]]
      | g :: gs => (c :: g) :: gs

/-! ## `_parsePageToken` (backend.py lines 32-49) -/

/-- `_parsePageToken(pageToken, numValues)`: split on `":"`, check the
segment count, convert each segment with `int`; wrong count or a
non-integer segment raises `BadPageTokenException`. -/
def parsePageToken (pageToken : String) (numValues : Nat) :
    Except GAError (List Int) :=
  let tokens := splitOnChar ':' pageToken.data
  if tokens.length ≠ numValues then
    .error (.BadPageTokenException "Invalid number of values in page token")
  else
    match optionMapAll pyIntChars? tokens with
    | some values => .ok values
    | none => .error (.BadPageTokenException "Malformed integers in page token")

/-- The token string `"{}:{}".format(searchAnchor, distanceFromAnchor)`
emitted by `IntervalIterator.next`. -/
def formatToken (a d : Int) : String :=
  String.mk (intChars a ++ ':' :: intChars d)

/-! ## Requests and interval objects -/

/-- The pagination-relevant fields of a protocol search request:
`start`/`end` genomic range, the opaque `pageToken` (absent on a fresh
request), `pageSize` (absent means the server default), and the
requested-effect filter used only by the variant-effect specialisation. -/
structure SearchRequest (ε : Type) where
  start : Int
  end_ : Int
  pageToken : Option String
  pageSize : Option Int
  effects : Option (List ε)
  deriving Repr, DecidableEq

/-- A plain interval object as the variants specialisation sees it:
`getStart`/`getEnd` are the object's own fields (`variant.start`,
`variant.end`); `uid` distinguishes objects sharing coordinates. -/
structure Obj where
  start : Int
  stop : Int
  uid : Nat
  deriving Repr, DecidableEq

instance : Inhabited Obj := ⟨⟨0, 0, 0⟩⟩

/-- The scan an interval-indexed backing store answers for
`search(start, end)`: the objects of the store, in the store's own order,
that overlap the half-open query range (`object.start < queryEnd` and
`object.end > queryStart`). -/
def intervalSearch (U : List Obj) (a b : Int) : List Obj :=
  U.filter (fun o => decide (o.start < b) && decide (a < o.stop))

/-! ## `IntervalIterator` (backend.py lines 52-148) -/

/-- The mutable state of an `IntervalIterator`: the not-yet-pulled rest of
`self._searchIterator`, the current and one-ahead objects, and the resume
bookkeeping. `searchAnchor`/`distanceFromAnchor` are `none` exactly while
Python leaves them `None` (an empty fresh scan). -/
structure IterState (α : Type) where
  searchList : List α
  currentObject : Option α
  nextObject : Option α
  searchAnchor : Option Int
  distanceFromAnchor : Option Int
  deriving Repr, DecidableEq

/-- `next(iterator, None)`: first element and rest, or `none`. -/
def pop {α : Type} : List α → Option α × List α
  | [] => (none, [])
  | x :: xs => (some x, xs)

/-- `next(iterator)` without a default: `StopIteration` on exhaustion. -/
def popE {α : Type} : List α → Except GAError (α × List α)
  | [] => .error .StopIteration
  | x :: xs => .ok (x, xs)

/-- The `for _ in range(objectsToSkip): obj = next(self._searchIterator)`
loop of phase 1 of `_pickUpIteration`. -/
def skipForward {α : Type} : Nat → α → List α → Except GAError (α × List α)
  | 0, obj, rest => .ok (obj, rest)
  | _ + 1, _, [] => .error .StopIteration
  | n + 1, _, x :: xs => skipForward n x xs

/-- The `while self._getStart(obj) < searchAnchor: obj = next(...)` loop of
phase 2 of `_pickUpIteration`. -/
def skipLowStarts {α : Type} (getStart : α → Int) (anchor : Int) :
    α → List α → Except GAError (α × List α)
  | obj, [] =>
    if getStart obj < anchor then .error .StopIteration else .ok (obj, [])
  | obj, x :: xs =>
    if getStart obj < anchor then skipLowStarts getStart anchor x xs
    else .ok (obj, x :: xs)

/-- The phase-2 skip over `objectsToSkip` objects that must all have
`start == searchAnchor`; a differing start raises `BadPageTokenException`
(the bare `raise exceptions.BadPageTokenException` of line 119). -/
def skipAnchorTies {α : Type} (getStart : α → Int) (anchor : Int) :
    Nat → α → List α → Except GAError (α × List α)
  | 0, obj, rest => .ok (obj, rest)
  | n + 1, obj, rest =>
    if getStart obj ≠ anchor then .error (.BadPageTokenException "")
    else
      match rest with
      | [] => .error .StopIteration
      | x :: xs => skipAnchorTies getStart anchor n x xs

/-- `IntervalIterator._initialiseIteration`: open the scan at the request
range, pull current and lookahead, and set the anchor to the larger of the
first object's start and the requested start. -/
def initialiseIteration {α ε : Type} (getStart : α → Int)
    (search : Int → Int → List α) (req : SearchRequest ε) : IterState α :=
  match search req.start req.end_ with
  | [] => ⟨[], none, none, none, none⟩
  | c :: rest =>
    let (nxt, rest') := pop rest
    let anchor := if getStart c > req.start then getStart c else req.start
    ⟨rest', some c, nxt, some anchor, some 0⟩

/-- `IntervalIterator._pickUpIteration`: re-open the scan at the anchor;
phase 1 (anchor equals the request start) skips blindly, phase 2 first
drops the starts below the anchor and then skips anchor ties, checking
each. -/
def pickUpIteration {α ε : Type} (getStart : α → Int)
    (search : Int → Int → List α) (req : SearchRequest ε)
    (searchAnchor objectsToSkip : Int) : Except GAError (IterState α) :=
  (popE (search searchAnchor req.end_)).bind (fun p =>
    (if searchAnchor = req.start then
      skipForward objectsToSkip.toNat p.1 p.2
    else
      (skipLowStarts getStart searchAnchor p.1 p.2).bind (fun q =>
        skipAnchorTies getStart searchAnchor objectsToSkip.toNat q.1 q.2)).bind
      (fun r =>
        .ok ⟨(pop r.2).2, some r.1, (pop r.2).1, some searchAnchor,
          some objectsToSkip⟩))

/-- `IntervalIterator.__init__`: fresh start without a token, resume
through `_parsePageToken(pageToken, 2)` with one. -/
def mkIntervalIterator {α ε : Type} (getStart : α → Int)
    (search : Int → Int → List α) (req : SearchRequest ε) :
    Except GAError (IterState α) :=
  match req.pageToken with
  | none => .ok (initialiseIteration getStart search req)
  | some tok =>
    (parsePageToken tok 2).bind (fun vals =>
      match vals with
      | [searchAnchor, objectsToSkip] =>
        pickUpIteration getStart search req searchAnchor objectsToSkip
      | _ =>
        .error (.BadPageTokenException "Invalid number of values in page token"))

/-- `IntervalIterator.next`: deliver the current object; if a lookahead
object exists, advance the anchor to its start (resetting the distance) or
increment the distance, and attach `searchAnchor:distanceFromAnchor` as
the token; with no lookahead the token is absent. The `none`-anchor arm
follows Python 2, where every integer compares greater than `None`; the
missing-distance arm is Python's `TypeError` on `None += 1` (neither arm
is reachable from a constructed iterator). -/
def iterNext {α : Type} (getStart : α → Int) (s : IterState α) :
    Except GAError ((α × Option String) × IterState α) :=
  match s.currentObject with
  | none => .error .StopIteration
  | some cur =>
    match s.nextObject with
    | none =>
      let (nxt, rest) := pop s.searchList
      .ok ((cur, none), ⟨rest, none, nxt, s.searchAnchor, s.distanceFromAnchor⟩)
    | some nxtObj =>
      let startV := getStart nxtObj
      let moveAnchor := match s.searchAnchor with
        | none => true
        | some a => startV > a
      if moveAnchor then
        let (nxt, rest) := pop s.searchList
        .ok ((cur, some (formatToken startV 0)),
          ⟨rest, some nxtObj, nxt, some startV, some 0⟩)
      else
        match s.searchAnchor, s.distanceFromAnchor with
        | some a, some d =>
          let (nxt, rest) := pop s.searchList
          .ok ((cur, some (formatToken a (d + 1))),
            ⟨rest, some nxtObj, nxt, some a, some (d + 1)⟩)
        | _, _ => .error .PyTypeError

/-- Size measure showing each `iterNext` step consumes the state. -/
def iterMeasure {α : Type} (s : IterState α) : Nat :=
  s.searchList.length + (if s.currentObject.isSome then 1 else 0)
    + (if s.nextObject.isSome then 1 else 0)

theorem iterMeasure_decreasing {α : Type} (getStart : α → Int)
    (s : IterState α) (p : α × Option String) (s' : IterState α)
    (h : iterNext getStart s = .ok (p, s')) : iterMeasure s' < iterMeasure s := by
  obtain ⟨L, cur, nxt, a, d⟩ := s
  cases cur with
  | none => simp [iterNext] at h
  | some c =>
    cases nxt with
    | none =>
      cases L with
      | nil =>
        simp [iterNext, pop] at h
        obtain ⟨-, h⟩ := h
        subst h
        simp [iterMeasure]
      | cons x xs =>
        simp [iterNext, pop] at h
        obtain ⟨-, h⟩ := h
        subst h
        simp [iterMeasure]
        try omega
    | some n =>
      cases a with
      | none =>
        cases L <;>
          · simp [iterNext, pop] at h
            obtain ⟨-, h⟩ := h
            subst h
            simp [iterMeasure]
            try omega
      | some av =>
        by_cases hm : getStart n > av
        · cases L <;>
            · simp [iterNext, pop, hm] at h
              obtain ⟨-, h⟩ := h
              subst h
              simp [iterMeasure]
              try omega
        · cases d with
          | none => simp [iterNext, pop, hm] at h
          | some dv =>
            cases L <;>
              · simp [iterNext, pop, hm] at h
                obtain ⟨-, h⟩ := h
                subst h
                simp [iterMeasure]
                try omega

/-- The full `(object, nextPageToken)` stream a constructed iterator
yields until `StopIteration`. -/
def iterToList {α : Type} (getStart : α → Int) (s : IterState α) :
    List (α × Option String) :=
  match h : iterNext getStart s with
  | .error _ => []
  | .ok (p, s') => p :: iterToList getStart s'
termination_by iterMeasure s
decreasing_by exact iterMeasure_decreasing getStart s p s' h

/-! ## The orchestration loop of `Backend.runSearchRequest`
(backend.py lines 670-703) -/

/-- Modelled from the spec: `SearchResponseBuilder.isFull` (protocol.py is
not among the sources) is true once either the page-size cap (count of
accepted objects) or the approximate serialized-size cap (bytes, summed by
an abstract per-object size) is reached. -/
def isFullModel {α : Type} (pageSize : Int) (maxResponseLength : Nat)
    (objSize : α → Nat) (values : List α) : Bool :=
  (pageSize ≤ (values.length : Int)) ||
    (maxResponseLength ≤ (values.map objSize).sum)

/-- The `for obj, nextPageToken in objectGenerator(request)` loop of
`runSearchRequest`: add each object to the response, breaking as soon as
the builder reports full *after* the add; the response's `nextPageToken`
is the one paired with the last accepted object (or `None` when nothing
was yielded). -/
def driveLoop {α : Type} (isFull : List α → Bool) :
    List (α × Option String) → List α → Option String →
    List α × Option String
  | [], acc, tok => (acc, tok)
  | (o, t) :: rest, acc, _ =>
    let acc' := acc ++ [o]
    if isFull acc' then (acc', t) else driveLoop isFull rest acc' t

/-- `Backend.runSearchRequest` from the decoded request object onward
(JSON decoding and the optional validation hooks are outside the modelled
core): default the page size, reject a non-positive one with
`BadPageSizeException` before touching the generator, then drive the
generator's `(object, nextPageToken)` stream into the response. -/
def runSearchRequestModel {α ε : Type} (defaultPageSize : Int)
    (maxResponseLength : Nat) (objSize : α → Nat)
    (objectGenerator : SearchRequest ε → Except GAError (List (α × Option String)))
    (req : SearchRequest ε) : Except GAError (List α × Option String) :=
  let pageSize := match req.pageSize with
    | none => defaultPageSize
    | some p => p
  if pageSize ≤ 0 then .error (.BadPageSizeException pageSize)
  else
    (objectGenerator { req with pageSize := some pageSize }).bind (fun pairs =>
      .ok (driveLoop (isFullModel pageSize maxResponseLength objSize)
        pairs [] none))

/-- The interval-iterator generator as `runSearchRequest` consumes it (for
the variants specialisation, whose `_getStart` is the object's own
field). -/
def intervalGenerator {ε : Type} (U : List Obj) (req : SearchRequest ε) :
    Except GAError (List (Obj × Option String)) :=
  (mkIntervalIterator Obj.start (intervalSearch U) req).map
    (iterToList Obj.start)

/-- A client that repeatedly re-issues the search with the previous
response's `nextPageToken` and concatenates the pages (the resumption
protocol the spec describes; the fuel only bounds the recursion and any
amount at least the number of pages is enough). -/
def collectPages {α : Type}
    (runPage : Option String → Except GAError (List α × Option String)) :
    Nat → Option String → Except GAError (List α)
  | 0, _ => .error (.BadPageTokenException "page collection ran out of fuel")
  | fuel + 1, tok =>
    (runPage tok).bind (fun page =>
      match page.2 with
      | none => .ok page.1
      | some t =>
        (collectPages runPage fuel (some t)).map (fun more => page.1 ++ more))

/-- Like `collectPages` but keeping each page with its token, to state
per-page properties. -/
def collectPagesList {α : Type}
    (runPage : Option String → Except GAError (List α × Option String)) :
    Nat → Option String → Except GAError (List (List α × Option String))
  | 0, _ => .error (.BadPageTokenException "page collection ran out of fuel")
  | fuel + 1, tok =>
    (runPage tok).bind (fun page =>
      match page.2 with
      | none => .ok [(page.1, none)]
      | some t =>
        (collectPagesList runPage fuel (some t)).map
          (fun more => (page.1, some t) :: more))

/-- One paginated interval search request: `runSearchRequest` over the
interval generator at page size `P`. -/
def runIntervalPage (U : List Obj) (s e P : Int) (maxResponseLength : Nat)
    (objSize : Obj → Nat) (tok : Option String) :
    Except GAError (List Obj × Option String) :=
  runSearchRequestModel 100 maxResponseLength objSize (intervalGenerator U)
    { start := s, end_ := e, pageToken := tok, pageSize := some P,
      effects := (none : Option (List Unit)) }

/-! ## Flat pagination: `Backend._topLevelObjectGenerator`
(backend.py lines 374-392) -/

/-- The `while currentIndex < numObjects` loop: yield the object at the
index together with `str(currentIndex + 1)` as token, or no token when
the incremented index reaches the count. The fuel argument is the
remaining iteration count `(numObjects - currentIndex).toNat`. -/
def flatYield {α : Type} (getByIndex : Int → α) (numObjects : Nat) :
    Nat → Int → List (α × Option String)
  | 0, _ => []
  | k + 1, i =>
    (getByIndex i,
      if i + 1 < (numObjects : Int) then some (intToString (i + 1)) else none)
      :: flatYield getByIndex numObjects k (i + 1)

/-- `Backend._topLevelObjectGenerator`: start at index 0 or at the single
integer decoded from the page token, then enumerate linearly. -/
def topLevelObjectGenerator {α ε : Type} (getByIndex : Int → α)
    (numObjects : Nat) (req : SearchRequest ε) :
    Except GAError (List (α × Option String)) :=
  match req.pageToken with
  | none => .ok (flatYield getByIndex numObjects numObjects 0)
  | some tok => do
    match ← parsePageToken tok 1 with
    | [i] => .ok (flatYield getByIndex numObjects ((numObjects : Int) - i).toNat i)
    | _ => .error (.BadPageTokenException "Invalid number of values in page token")

/-- One paginated flat search request. -/
def runFlatPage {α : Type} (getByIndex : Int → α) (numObjects : Nat)
    (P : Int) (maxResponseLength : Nat) (objSize : α → Nat)
    (tok : Option String) : Except GAError (List α × Option String) :=
  runSearchRequestModel 100 maxResponseLength objSize
    (topLevelObjectGenerator (ε := Unit) getByIndex numObjects)
    { start := 0, end_ := 0, pageToken := tok, pageSize := some P,
      effects := none }

/-! ## `VariantAnnotationsIntervalIterator` (backend.py lines 198-286) -/

/-- An ontology-term effect carried by a transcript effect (`effect.id`). -/
structure Effect where
  id : String
  deriving Repr, DecidableEq

/-- A transcript effect with its list of effects. -/
structure TranscriptEffect where
  effects : List Effect
  deriving Repr, DecidableEq

/-- A variant-annotation object delivered by
`getVariantAnnotations(referenceName, start, end)`. -/
structure VAnnObj where
  start : Int
  stop : Int
  uid : Nat
  transcriptEffects : List TranscriptEffect
  deriving Repr, DecidableEq

/-- A requested effect from the search request: a dict that may or may not
carry an `"id"` key. -/
structure ReqEffect where
  id? : Option String
  deriving Repr, DecidableEq

/-- `_checkIdEquality`: the requested effect has an `"id"` key and it
equals the effect's id. -/
def checkIdEquality (requestedEffect : ReqEffect) (effect : Effect) : Bool :=
  match requestedEffect.id? with
  | some i => effect.id = i
  | none => false

/-- `_matchAnyEffects`: `ret = check or ret` folded over the requested
effects, starting from `False`. -/
def matchAnyEffects (requestedEffects : List ReqEffect) (effect : Effect) : Bool :=
  requestedEffects.foldl (fun ret re => checkIdEquality re effect || ret) false

/-- `filterEffect`: whether any effect of the transcript effect matches. -/
def filterEffect (requestedEffects : List ReqEffect) (teff : TranscriptEffect) : Bool :=
  teff.effects.foldl (fun ret e => matchAnyEffects requestedEffects e || ret) false

/-- `filterVariantAnnotation` of `VariantAnnotationsIntervalIterator`:
include the annotation when the filter is empty, or when some transcript
effect passes `filterEffect`; an annotation with no transcript effects is
excluded under a non-empty filter. -/
def filterVAnn (requestedEffects : List ReqEffect) (vann : VAnnObj) : Bool :=
  if requestedEffects.length ≠ 0 ∧ vann.transcriptEffects = [] then false
  else if requestedEffects.length = 0 then true
  else vann.transcriptEffects.foldl
    (fun ret teff => if filterEffect requestedEffects teff then true else ret) false

/-- `_removeNonMatchingTranscriptEffects`: with a non-empty filter,
replace the transcript-effect list by the sublist whose members contain a
matching effect. -/
def removeNonMatchingTranscriptEffects (requestedEffects : List ReqEffect)
    (ann : VAnnObj) : VAnnObj :=
  if requestedEffects = [] then ann
  else
    { ann with transcriptEffects :=
        ann.transcriptEffects.filter (fun txe =>
          txe.effects.foldl (fun add e => if matchAnyEffects requestedEffects e then true else add) false) }

/-- The wrapped `next` of `VariantAnnotationsIntervalIterator`, iterated to
the end: pull from the base iterator in a loop, dropping annotations that
fail the filter and rewriting the transcript effects of those that pass. -/
def vannToList (requestedEffects : List ReqEffect) (s : IterState VAnnObj) :
    List (VAnnObj × Option String) :=
  match h : iterNext VAnnObj.start s with
  | .error _ => []
  | .ok ((v, t), s') =>
    if filterVAnn requestedEffects v then
      (removeNonMatchingTranscriptEffects requestedEffects v, t)
        :: vannToList requestedEffects s'
    else vannToList requestedEffects s'
termination_by iterMeasure s
decreasing_by all_goals exact iterMeasure_decreasing VAnnObj.start s (v, t) s' h

/-! ## The compound-identifier parser, modelled from the specification -/

/-- A Python value as it may reach `CompoundId.parse` through the dynamic
API boundary: a string, or one of the non-string values the unit tests
probe (`0`, `None`, `[]`). -/
inductive PyValue where
  | str (s : String)
  | int (n : Int)
  | pynone
  | pylist (l : List PyValue)
  deriving Repr

/-- Modelled from the spec: the escape step of `CompoundId.encode` —
back-slash-escape the quote character, leaving every other character
(including the separator) in place. -/
def escChars (f : List Char) : List Char :=
  f.foldr (fun c acc => if c = '"' then '\\' :: '"' :: acc else c :: acc) []

/-- Modelled from the spec: one rendered field of `join` — the escaped
field between its enclosing quotes. -/
def fieldChars (f : List Char) : List Char := '"' :: escChars f ++ ['"']

/-- Modelled from the spec: the rendering of `join` after its first field —
a comma and a rendered field per remaining field, then the closing `]`. -/
def tailChars (fields : List (List Char)) : List Char :=
  fields.foldr (fun g acc => ',' :: fieldChars g ++ acc) [']']

/-- Modelled from the spec: `CompoundId.join` renders the fields as a
JSON-array-like string `["a","b","c"]`, each field escaped; `join []` is
`"[]"`. -/
def joinChars (fields : List (List Char)) : List Char :=
  '[' :: (match fields with
    | [] => [']']
    | f :: fs => fieldChars f ++ tailChars fs)

/-- Modelled from the spec: `CompoundId.join` at the string level. -/
def joinModel (fields : List String) : String :=
  String.mk (joinChars (fields.map String.data))

/-- Quoted-string parser for `split`: the input follows the opening quote;
a backslash escapes the next character; the closing quote ends the field.
`none` models a decoding error (unterminated string). -/
def parseEscString : List Char → Option (List Char × List Char)
  | [] => none
  | c :: rest =>
    if c = '\\' then
      match rest with
      | [] => none
      | d :: rest2 => (parseEscString rest2).map (fun p => (d :: p.1, p.2))
    else if c = '"' then some ([], rest)
    else (parseEscString rest).map (fun p => (c :: p.1, p.2))

/-- A quoted field: an opening quote followed by `parseEscString`. -/
def parseQuoted (cs : List Char) : Option (List Char × List Char) :=
  match cs with
  | [] => none
  | c :: rest => if c = '"' then parseEscString rest else none

/-- Spaces tolerated after a comma in the spaced JSON-array syntax. -/
def dropSpaces (cs : List Char) : List Char := cs.dropWhile (fun c => c = ' ')

/-- Field-list parser for `split`, positioned at a field: a quoted field
followed by `]` at the end of input, or by `,`, optional spaces, and more
fields. The fuel only bounds the recursion; the input length is enough. -/
def splitAux : Nat → List Char → Option (List (List Char))
  | 0, _ => none
  | fuel + 1, cs =>
    match parseQuoted cs with
    | none => none
    | some (f, r) =>
      match r with
      | [] => none
      | c :: r2 =>
        if c = ']' then (if r2 = [] then some [f] else none)
        else if c = ',' then
          (splitAux fuel (dropSpaces r2)).map (fun fs => f :: fs)
        else none

/-- Modelled from the spec: `CompoundId.split`, the inverse of `join`,
tolerating both compact and spaced array syntax; `none` models the
decoding error `parse` turns into `ObjectWithIdNotFoundException`. -/
def splitModel (s : String) : Option (List String) :=
  match s.data with
  | [] => none
  | c :: rest =>
    if c = '[' then
      match rest with
      | [] => none
      | d :: rest2 =>
        if d = ']' then (if rest2 = [] then some [] else none)
        else (splitAux (rest.length + 1) rest).map (List.map String.mk)
    else none

/-- An obfuscation codec as the spec requires: a reversible, URL-safe
string transform whose decode direction performs no validation. -/
structure ObfuscationScheme where
  obfuscate : String → String
  deobfuscate : String → String
  deobfuscate_obfuscate : ∀ s, deobfuscate (obfuscate s) = s

/-- The trivial obfuscation codec, enough to witness the parse theorems. -/
def idScheme : ObfuscationScheme :=
  ⟨fun s => s, fun s => s, fun _ => rfl⟩

/-- Modelled from the spec: `CompoundId.parse` for a schema with
`numFields` fields — deobfuscate, split, and check the field count;
a split failure or a count mismatch raises
`ObjectWithIdNotFoundException` carrying the offending string, and a
non-string input raises `BadIdentifierException`. -/
def parseCompoundId (scheme : ObfuscationScheme) (numFields : Nat) :
    PyValue → Except GAError (List String)
  | .str s =>
    match splitModel (scheme.deobfuscate s) with
    | none => .error (.ObjectWithIdNotFoundException s)
    | some fs =>
      if fs.length = numFields then .ok fs
      else .error (.ObjectWithIdNotFoundException s)
  | _ => .error .BadIdentifierException

/-! ## Round-trip of the decimal codec -/

theorem charDigit?_digitChar {d : Nat} (h : d < 10) :
    charDigit? (digitChar d) = some d := by
  interval_cases d <;> decide

theorem pyDigitsVal_append (ds : List Nat) (d : Nat) :
    pyDigitsVal (ds ++ [d]) = 10 * pyDigitsVal ds + d := by
  simp [pyDigitsVal, List.foldl_append]

theorem pyDigitsVal_natDigitsRevFuel :
    ∀ fuel n, n ≤ fuel → pyDigitsVal ((natDigitsRevFuel fuel n).reverse) = n := by
  intro fuel
  induction fuel with
  | zero =>
    intro n hn
    interval_cases n
    simp [natDigitsRevFuel, pyDigitsVal]
  | succ f ih =>
    intro n hn
    by_cases h0 : n = 0
    · subst h0
      simp [natDigitsRevFuel, pyDigitsVal]
    · have hdiv : n / 10 ≤ f := by omega
      simp only [natDigitsRevFuel, if_neg h0, List.reverse_cons]
      rw [pyDigitsVal_append, ih _ hdiv]
      omega

theorem natDigitsRevFuel_lt :
    ∀ fuel n d, d ∈ natDigitsRevFuel fuel n → d < 10 := by
  intro fuel
  induction fuel with
  | zero => intro n d h; simp [natDigitsRevFuel] at h
  | succ f ih =>
    intro n d h
    by_cases h0 : n = 0
    · subst h0; simp [natDigitsRevFuel] at h
    · simp only [natDigitsRevFuel, if_neg h0, List.mem_cons] at h
      rcases h with h | h
      · omega
      · exact ih _ _ h

theorem optionMapAll_cons {a b : Type} (f : a → Option b) (x : a) (xs : List a) :
    optionMapAll f (x :: xs) =
      match f x, optionMapAll f xs with
      | some y, some ys => some (y :: ys)
      | _, _ => none := rfl

theorem optionMapAll_charDigit?_map_digitChar :
    ∀ ds : List Nat, (∀ d ∈ ds, d < 10) →
      optionMapAll charDigit? (ds.map digitChar) = some ds := by
  intro ds
  induction ds with
  | nil => intro _; rfl
  | cons d ds ih =>
    intro h
    have hd : d < 10 := h d (List.mem_cons_self d ds)
    have hds := ih (fun x hx => h x (List.mem_cons_of_mem d hx))
    simp [optionMapAll_cons, charDigit?_digitChar hd, hds]

theorem natChars_ne_nil (n : Nat) : natChars n ≠ [] := by
  by_cases h0 : n = 0
  · subst h0; simp [natChars]
  · simp only [natChars, if_neg h0]
    intro hcon
    rw [List.reverse_eq_nil_iff, List.map_eq_nil_iff] at hcon
    cases n with
    | zero => exact h0 rfl
    | succ m => simp [natDigitsRevFuel] at hcon

theorem mem_natChars_digit {n : Nat} {c : Char} (h : c ∈ natChars n) :
    48 ≤ c.toNat ∧ c.toNat ≤ 57 := by
  by_cases h0 : n = 0
  · subst h0
    simp [natChars] at h
    subst h
    decide
  · simp only [natChars, if_neg h0, List.mem_reverse, List.mem_map] at h
    obtain ⟨d, hd, hc⟩ := h
    have hlt : d < 10 := natDigitsRevFuel_lt n n d hd
    subst hc
    unfold digitChar
    interval_cases d <;> decide

theorem pyIntCore?_cons (c : Char) (cs : List Char) :
    pyIntCore? (c :: cs) = (optionMapAll charDigit? (c :: cs)).map pyDigitsVal := rfl

theorem pyIntCore?_natChars (n : Nat) : pyIntCore? (natChars n) = some n := by
  by_cases h0 : n = 0
  · subst h0; decide
  · have hmap : optionMapAll charDigit? (natChars n)
        = some ((natDigitsRevFuel n n).reverse) := by
      have hnc : natChars n = ((natDigitsRevFuel n n).reverse).map digitChar := by
        simp [natChars, if_neg h0, List.map_reverse]
      rw [hnc]
      exact optionMapAll_charDigit?_map_digitChar _
        (fun d hd => natDigitsRevFuel_lt n n d (List.mem_reverse.mp hd))
    obtain ⟨c, cs, hcons⟩ := List.exists_cons_of_ne_nil (natChars_ne_nil n)
    rw [hcons, pyIntCore?_cons, ← hcons, hmap]
    simp [pyDigitsVal_natDigitsRevFuel n n (le_refl n)]

theorem dropWhile_eq_self_of_head {α : Type} (p : α → Bool) (cs : List α)
    (h : ∀ c ∈ cs, p c = false) : cs.dropWhile p = cs := by
  cases cs with
  | nil => rfl
  | cons x xs =>
    have hx : p x = false := h x (List.mem_cons_self x xs)
    simp [List.dropWhile_cons, hx]

theorem pyTrim_eq_self (cs : List Char)
    (h : ∀ c ∈ cs, isPySpace c = false) : pyTrim cs = cs := by
  unfold pyTrim
  rw [dropWhile_eq_self_of_head _ _ h]
  rw [dropWhile_eq_self_of_head _ _ (fun c hc => h c (List.mem_reverse.mp hc))]
  exact List.reverse_reverse cs

theorem isPySpace_eq_false_of_toNat {c : Char} (h : 33 ≤ c.toNat) :
    isPySpace c = false := by
  have hs : c ≠ ' ' := by intro hc; subst hc; exact absurd h (by decide)
  have ht : c ≠ '\t' := by intro hc; subst hc; exact absurd h (by decide)
  have hn : c ≠ '\n' := by intro hc; subst hc; exact absurd h (by decide)
  have hr : c ≠ '\r' := by intro hc; subst hc; exact absurd h (by decide)
  have h11 : ¬ (c.toNat = 11) := by omega
  have h12 : ¬ (c.toNat = 12) := by omega
  simp [isPySpace, hs, ht, hn, hr, h11, h12]

theorem mem_intChars {i : Int} {c : Char} (h : c ∈ intChars i) :
    c.toNat = 45 ∨ (48 ≤ c.toNat ∧ c.toNat ≤ 57) := by
  unfold intChars at h
  by_cases hneg : i < 0
  · rw [if_pos hneg] at h
    rcases List.mem_cons.mp h with h | h
    · subst h; left; decide
    · right; exact mem_natChars_digit h
  · rw [if_neg hneg] at h
    right; exact mem_natChars_digit h

theorem intChars_no_space {i : Int} {c : Char} (h : c ∈ intChars i) :
    isPySpace c = false := by
  apply isPySpace_eq_false_of_toNat
  rcases mem_intChars h with h45 | ⟨h1, h2⟩ <;> omega

theorem intChars_no_colon {i : Int} {c : Char} (h : c ∈ intChars i) :
    c ≠ ':' := by
  intro hcon
  subst hcon
  rcases mem_intChars h with h45 | ⟨h1, h2⟩
  · exact absurd h45 (by decide)
  · exact absurd h2 (by decide)

theorem pyIntChars?_of_digit_head {cs : List Char} (htrim : pyTrim cs = cs)
    {c : Char} {cs' : List Char} (hcons : cs = c :: cs')
    (h1 : c ≠ '-') (h2 : c ≠ '+') :
    pyIntChars? cs = (pyIntCore? cs).map (fun n => (n : Int)) := by
  unfold pyIntChars?
  rw [htrim, hcons]
  split
  · next heq => exact absurd (List.head_eq_of_cons_eq heq) h1
  · next heq => exact absurd (List.head_eq_of_cons_eq heq) h2
  · rfl

theorem natChars_head_no_sign {n : Nat} {c : Char} {cs' : List Char}
    (hcons : natChars n = c :: cs') : c ≠ '-' ∧ c ≠ '+' := by
  have hcmem : c ∈ natChars n := by rw [hcons]; exact List.mem_cons_self c cs'
  have hdig := mem_natChars_digit hcmem
  constructor <;>
    · intro hcon
      subst hcon
      revert hdig
      decide

theorem pyIntChars?_of_minus_head {cs rest : List Char} (htrim : pyTrim cs = cs)
    (hcons : cs = '-' :: rest) :
    pyIntChars? cs = (pyIntCore? rest).map (fun n => -(n : Int)) := by
  unfold pyIntChars?
  rw [htrim, hcons]
  split
  · next rest' heq =>
    obtain ⟨h1, h2⟩ := List.cons_eq_cons.mp heq
    subst h2
    rfl
  · next rest' heq =>
    obtain ⟨h1, h2⟩ := List.cons_eq_cons.mp heq
    exact absurd h1 (by decide)
  · next hne1 hne2 =>
    exact absurd rfl (hne1 rest)

theorem pyIntChars?_intChars (i : Int) : pyIntChars? (intChars i) = some i := by
  have htrim : pyTrim (intChars i) = intChars i :=
    pyTrim_eq_self _ (fun c hc => intChars_no_space hc)
  by_cases hneg : i < 0
  · have hic : intChars i = '-' :: natChars i.natAbs := by
      simp [intChars, if_pos hneg]
    rw [pyIntChars?_of_minus_head htrim hic, pyIntCore?_natChars]
    simp [abs_of_neg hneg]
  · have hic : intChars i = natChars i.toNat := by
      simp [intChars, if_neg hneg]
    obtain ⟨c, cs', hcons⟩ :=
      List.exists_cons_of_ne_nil (natChars_ne_nil i.toNat)
    obtain ⟨hm, hp⟩ := natChars_head_no_sign hcons
    rw [hic] at htrim ⊢
    rw [pyIntChars?_of_digit_head htrim hcons hm hp, pyIntCore?_natChars]
    simp [Int.toNat_of_nonneg (le_of_not_lt hneg)]

/-! ## Split and page-token round-trip -/

theorem splitOnChar_ne_nil (sep : Char) (cs : List Char) :
    splitOnChar sep cs ≠ [] := by
  cases cs with
  | nil => simp [splitOnChar]
  | cons c cs =>
    simp only [splitOnChar]
    by_cases h : c = sep
    · simp [h]
    · rw [if_neg h]
      split <;> simp

theorem splitOnChar_no_sep (sep : Char) (cs : List Char)
    (h : ∀ c ∈ cs, c ≠ sep) : splitOnChar sep cs = [cs] := by
  induction cs with
  | nil => rfl
  | cons c cs ih =>
    have hc : c ≠ sep := h c (List.mem_cons_self c cs)
    have hrec := ih (fun x hx => h x (List.mem_cons_of_mem c hx))
    simp only [splitOnChar, if_neg hc, hrec]

theorem splitOnChar_append (sep : Char) (A B : List Char)
    (h : ∀ c ∈ A, c ≠ sep) :
    splitOnChar sep (A ++ sep :: B) = A :: splitOnChar sep B := by
  induction A with
  | nil => simp [splitOnChar]
  | cons c A ih =>
    have hc : c ≠ sep := h c (List.mem_cons_self c A)
    have hrec := ih (fun x hx => h x (List.mem_cons_of_mem c hx))
    simp only [List.cons_append, splitOnChar, if_neg hc, List.append_eq, hrec]

theorem parsePageToken_formatToken (a d : Int) :
    parsePageToken (formatToken a d) 2 = .ok [a, d] := by
  have hsplit : splitOnChar ':' (formatToken a d).data
      = [intChars a, intChars d] := by
    show splitOnChar ':' (intChars a ++ ':' :: intChars d) = _
    rw [splitOnChar_append ':' _ _ (fun c hc => intChars_no_colon hc),
      splitOnChar_no_sep ':' _ (fun c hc => intChars_no_colon hc)]
  unfold parsePageToken
  rw [hsplit]
  simp [optionMapAll_cons, optionMapAll, pyIntChars?_intChars]

theorem parsePageToken_intToString (i : Int) :
    parsePageToken (intToString i) 1 = .ok [i] := by
  have hsplit : splitOnChar ':' (intToString i).data = [intChars i] :=
    splitOnChar_no_sep ':' _ (fun c hc => intChars_no_colon hc)
  unfold parsePageToken
  rw [hsplit]
  simp [optionMapAll_cons, optionMapAll, pyIntChars?_intChars]

theorem optionMapAll_isSome {a b : Type} (f : a → Option b) (l : List a)
    (h : ∀ x ∈ l, (f x).isSome) :
    ∃ ys, optionMapAll f l = some ys ∧ ys.length = l.length := by
  induction l with
  | nil => exact ⟨[], rfl, rfl⟩
  | cons x xs ih =>
    have hx := h x (List.mem_cons_self x xs)
    obtain ⟨y, hy⟩ := Option.isSome_iff_exists.mp hx
    obtain ⟨ys, hys, hlen⟩ := ih (fun z hz => h z (List.mem_cons_of_mem x hz))
    refine ⟨y :: ys, ?_, by simp [hlen]⟩
    simp [optionMapAll_cons, hy, hys]

theorem optionMapAll_isNone {a b : Type} (f : a → Option b) (l : List a)
    (h : ∃ x ∈ l, f x = none) : optionMapAll f l = none := by
  induction l with
  | nil => simp at h
  | cons x xs ih =>
    rw [optionMapAll_cons]
    rcases h with ⟨z, hz, hnone⟩
    rcases List.mem_cons.mp hz with hz | hz
    · subst hz
      rw [hnone]
    · rw [ih ⟨z, hz, hnone⟩]
      cases f x <;> rfl

/-- C7: `_parsePageToken(tokenString, arity)` returns a list of exactly
`arity` integers when the string consists of exactly `arity`
colon-separated integer-parseable segments; a different segment count, or
any non-integer segment, raises `BadPageTokenException`. -/
theorem C7_parsePageToken_spec (s : String) (k : Nat) :
    ((splitOnChar ':' s.data).length = k →
      (∀ seg ∈ splitOnChar ':' s.data, (pyIntChars? seg).isSome) →
      ∃ vals : List Int, parsePageToken s k = .ok vals ∧ vals.length = k ∧
        optionMapAll pyIntChars? (splitOnChar ':' s.data) = some vals) ∧
    ((splitOnChar ':' s.data).length ≠ k →
      parsePageToken s k =
        .error (.BadPageTokenException "Invalid number of values in page token")) ∧
    ((splitOnChar ':' s.data).length = k →
      (∃ seg ∈ splitOnChar ':' s.data, pyIntChars? seg = none) →
      parsePageToken s k =
        .error (.BadPageTokenException "Malformed integers in page token")) := by
  refine ⟨?_, ?_, ?_⟩
  · intro hlen hall
    obtain ⟨vals, hvals, hvlen⟩ := optionMapAll_isSome pyIntChars? _ hall
    refine ⟨vals, ?_, by omega, hvals⟩
    unfold parsePageToken
    rw [if_neg (by simp [hlen]), hvals]
  · intro hlen
    unfold parsePageToken
    rw [if_pos hlen]
  · intro hlen hbad
    unfold parsePageToken
    rw [if_neg (by simp [hlen]), optionMapAll_isNone pyIntChars? _ hbad]

theorem C7_parsePageToken_spec_witness :
    (∃ vals : List Int, parsePageToken "5:7" 2 = .ok vals ∧ vals.length = 2 ∧
      optionMapAll pyIntChars? (splitOnChar ':' ("5:7").data) = some vals) ∧
    parsePageToken "5:x" 2 =
      .error (.BadPageTokenException "Malformed integers in page token") ∧
    parsePageToken "5" 2 =
      .error (.BadPageTokenException "Invalid number of values in page token") :=
  ⟨(C7_parsePageToken_spec "5:7" 2).1 (by decide) (by decide),
    (C7_parsePageToken_spec "5:x" 2).2.2 (by decide)
      ⟨['x'], by decide, by decide⟩,
    (C7_parsePageToken_spec "5" 2).2.1 (by decide)⟩

/-! ## Generic lemmas about the skipping loops -/

theorem pop_drop {α : Type} (l : List α) (k : Nat) :
    pop (l.drop k) = (l[k]?, l.drop (k + 1)) := by
  by_cases h : k < l.length
  · rw [List.drop_eq_getElem_cons h]
    simp [pop, List.getElem?_eq_getElem h]
  · have h1 : l.length ≤ k := by omega
    have h2 : l.length ≤ k + 1 := by omega
    rw [List.drop_eq_nil_of_le h1, List.drop_eq_nil_of_le h2]
    simp [pop, List.getElem?_eq_none h1]

theorem skipForward_drop {α : Type} :
    ∀ (k : Nat) (x : α) (xs : List α) (y : α) (ys : List α),
      (x :: xs).drop k = y :: ys → skipForward k x xs = .ok (y, ys) := by
  intro k
  induction k with
  | zero =>
    intro x xs y ys h
    rw [List.drop_zero] at h
    cases h
    rfl
  | succ m ih =>
    intro x xs y ys h
    rw [List.drop_succ_cons] at h
    cases xs with
    | nil => rw [List.drop_nil] at h; cases h
    | cons z zs =>
      rw [skipForward]
      exact ih z zs y ys h

theorem skipAnchorTies_drop {α : Type} (g : α → Int) (a : Int) :
    ∀ (k : Nat) (x : α) (xs : List α) (y : α) (ys : List α),
      (x :: xs).drop k = y :: ys →
      (∀ i (hi : i < k) (hlen : i < (x :: xs).length),
        g ((x :: xs).get ⟨i, hlen⟩) = a) →
      skipAnchorTies g a k x xs = .ok (y, ys) := by
  intro k
  induction k with
  | zero =>
    intro x xs y ys h _
    rw [List.drop_zero] at h
    cases h
    rfl
  | succ m ih =>
    intro x xs y ys h hties
    have hx : g x = a := hties 0 (by omega) (by simp)
    rw [List.drop_succ_cons] at h
    cases xs with
    | nil => rw [List.drop_nil] at h; cases h
    | cons z zs =>
      rw [skipAnchorTies, if_neg (by simp [hx])]
      exact ih z zs y ys h
        (fun i hi hlen => hties (i + 1) (by omega) (by simp at hlen ⊢; omega))

theorem skipLowStarts_dropWhile {α : Type} (g : α → Int) (a : Int) :
    ∀ (rest : List α) (obj : α),
      skipLowStarts g a obj rest =
        match (obj :: rest).dropWhile (fun x => decide (g x < a)) with
        | [] => .error .StopIteration
        | x :: xs => .ok (x, xs) := by
  intro rest
  induction rest with
  | nil =>
    intro obj
    by_cases h : g obj < a <;> simp [skipLowStarts, List.dropWhile_cons, h]
  | cons y ys ih =>
    intro obj
    by_cases h : g obj < a
    · rw [List.dropWhile_cons, if_pos (by simp [h])]
      show skipLowStarts g a obj (y :: ys) = _
      rw [skipLowStarts, if_pos h]
      exact ih y
    · rw [List.dropWhile_cons, if_neg (by simp [h])]
      show skipLowStarts g a obj (y :: ys) = _
      rw [skipLowStarts, if_neg h]

theorem dropWhile_eq_drop_of_index {α : Type} (p : α → Bool) :
    ∀ (l : List α) (k : Nat), k ≤ l.length →
      (∀ j (hj : j < k) (hlen : j < l.length), p (l.get ⟨j, hlen⟩) = true) →
      (∀ (hk : k < l.length), p (l.get ⟨k, hk⟩) = false) →
      l.dropWhile p = l.drop k := by
  intro l
  induction l with
  | nil => intro k hk _ _; simp
  | cons x xs ih =>
    intro k hk hpre hfail
    cases k with
    | zero =>
      have hx : p x = false := hfail (by simp)
      simp [List.dropWhile_cons, hx]
    | succ m =>
      have hx : p x = true := hpre 0 (by omega) (by simp)
      rw [List.dropWhile_cons, if_pos (by simp [hx]), List.drop_succ_cons]
      exact ih m (by simpa using hk)
        (fun j hj hlen => hpre (j + 1) (by omega) (by simp; omega))
        (fun hm => hfail (by simpa using hm))

/-! ## The anchor recurrence of a fresh interval scan -/

/-- The start of the `t`-th scanned object (0 past the end; only indices
inside the scan are ever used). -/
def startAt (L : List Obj) (t : Nat) : Int :=
  match L[t]? with
  | some o => o.start
  | none => 0

/-- The value of `self._searchAnchor` while the `t`-th object of the scan
is the current object of a fresh iteration. -/
def anchorAt (L : List Obj) (s : Int) : Nat → Int
  | 0 => if startAt L 0 > s then startAt L 0 else s
  | t + 1 =>
    if startAt L (t + 1) > anchorAt L s t then startAt L (t + 1)
    else anchorAt L s t

/-- The value of `self._distanceFromAnchor` while the `t`-th object of the
scan is the current object of a fresh iteration. -/
def distAt (L : List Obj) (s : Int) : Nat → Nat
  | 0 => 0
  | t + 1 =>
    if startAt L (t + 1) > anchorAt L s t then 0 else distAt L s t + 1

/-- The full iterator state while the `t`-th scanned object is current. -/
def stateAt (L : List Obj) (s : Int) (t : Nat) : IterState Obj :=
  ⟨L.drop (t + 2), L[t]?, L[t + 1]?, some (anchorAt L s t),
    some ((distAt L s t : Int))⟩

/-- The token delivered with the `(k-1)`-th object: the anchor state after
looking ahead to object `k`, or absent once the lookahead is past the
scan. -/
def tokNext (L : List Obj) (s : Int) (k : Nat) : Option String :=
  if k < L.length then some (formatToken (anchorAt L s k) (distAt L s k))
  else none

/-- The `(object, token)` pairs delivered from scan position `t` on. -/
def pairListFrom (L : List Obj) (s : Int) (t : Nat) :
    List (Obj × Option String) :=
  if h : t < L.length then
    (L.get ⟨t, h⟩, tokNext L s (t + 1)) :: pairListFrom L s (t + 1)
  else []
termination_by L.length - t

theorem startAt_get (L : List Obj) (t : Nat) (h : t < L.length) :
    startAt L t = (L.get ⟨t, h⟩).start := by
  simp [startAt, List.getElem?_eq_getElem h]

theorem startAt_mono (L : List Obj)
    (hsort : L.Pairwise (fun a b => a.start ≤ b.start))
    {i j : Nat} (hij : i ≤ j) (hj : j < L.length) :
    startAt L i ≤ startAt L j := by
  rcases Nat.lt_or_ge i j with h | h
  · rw [startAt_get L i (by omega), startAt_get L j hj]
    exact (List.pairwise_iff_getElem.mp hsort) i j (by omega) hj h
  · have : i = j := by omega
    subst this
    exact le_refl _

theorem anchorAt_closed (L : List Obj) (s : Int)
    (hsort : L.Pairwise (fun a b => a.start ≤ b.start)) :
    ∀ t, t < L.length → anchorAt L s t = max (startAt L t) s := by
  intro t
  induction t with
  | zero =>
    intro _
    simp only [anchorAt]
    omega
  | succ m ih =>
    intro ht
    have hm := ih (by omega)
    have hmono := startAt_mono L hsort (Nat.le_succ m) ht
    have hss : startAt L m.succ = startAt L (m + 1) := rfl
    simp only [anchorAt, hm, Nat.succ_eq_add_one]
    split <;> omega

theorem anchorAt_ge (L : List Obj) (s : Int)
    (hsort : L.Pairwise (fun a b => a.start ≤ b.start))
    {t : Nat} (ht : t < L.length) : s ≤ anchorAt L s t := by
  rw [anchorAt_closed L s hsort t ht]
  omega

/-- The distance invariant: the distance never exceeds the index; while
the anchor is still the request start the distance counts every
delivered object; once the anchor has advanced, the objects between
`t - distAt` and `t` form the tie run at the anchor and the object just
before it (when any) starts strictly below the anchor. -/
theorem distAt_inv (L : List Obj) (s : Int)
    (hsort : L.Pairwise (fun a b => a.start ≤ b.start)) :
    ∀ t, t < L.length →
      distAt L s t ≤ t ∧
      (anchorAt L s t = s → distAt L s t = t) ∧
      (s < anchorAt L s t →
        (∀ j, t - distAt L s t ≤ j → j ≤ t → startAt L j = anchorAt L s t) ∧
        (t - distAt L s t = 0 ∨
          startAt L (t - distAt L s t - 1) < anchorAt L s t)) := by
  intro t
  induction t with
  | zero =>
    intro ht
    have hc := anchorAt_closed L s hsort 0 ht
    refine ⟨le_refl 0, fun _ => rfl, fun hgt => ⟨?_, Or.inl rfl⟩⟩
    intro j h0 hj
    have : j = 0 := by omega
    subst this
    omega
  | succ m ih =>
    intro ht
    obtain ⟨ihle, ihs, ihrun⟩ := ih (by omega)
    have hcm := anchorAt_closed L s hsort m (by omega)
    have hcm1 := anchorAt_closed L s hsort (m + 1) ht
    have hmono := startAt_mono L hsort (Nat.le_succ m) ht
    by_cases hmove : startAt L (m + 1) > anchorAt L s m
    · have ha : anchorAt L s (m + 1) = startAt L (m + 1) := by
        simp only [anchorAt, if_pos hmove]
      have hd : distAt L s (m + 1) = 0 := by
        simp only [distAt, if_pos hmove]
      refine ⟨by omega, ?_, ?_⟩
      · intro hs
        rw [ha] at hs
        omega
      · intro hgt
        rw [hd, ha]
        refine ⟨?_, ?_⟩
        · intro j h1 h2
          have : j = m + 1 := by omega
          subst this
          rfl
        · right
          simp only [Nat.sub_zero, Nat.add_sub_cancel]
          omega
    · have ha : anchorAt L s (m + 1) = anchorAt L s m := by
        simp only [anchorAt, if_neg hmove]
      have hd : distAt L s (m + 1) = distAt L s m + 1 := by
        simp only [distAt, if_neg hmove]
      refine ⟨by omega, ?_, ?_⟩
      · intro hs
        rw [ha] at hs
        have := ihs hs
        omega
      · intro hgt
        rw [ha] at hgt ⊢
        obtain ⟨hrun, hbound⟩ := ihrun hgt
        have hstartm : startAt L m = anchorAt L s m := by
          apply hrun m (by omega) (le_refl m)
        have hstartm1 : startAt L (m + 1) = anchorAt L s m := by
          have h1 : startAt L m ≤ startAt L (m + 1) := hmono
          omega
        refine ⟨?_, ?_⟩
        · intro j h1 h2
          rw [hd] at h1
          rcases Nat.lt_or_ge j (m + 1) with hj | hj
          · exact hrun j (by omega) (by omega)
          · have : j = m + 1 := by omega
            subst this
            exact hstartm1
        · rw [hd]
          have : m + 1 - (distAt L s m + 1) = m - distAt L s m := by omega
          rw [this]
          exact hbound

/-! ## The delivery stream of a fresh interval scan -/

theorem iterToList_eq_err {α : Type} (g : α → Int) (st : IterState α)
    (err : GAError) (h : iterNext g st = .error err) : iterToList g st = [] := by
  rw [iterToList.eq_def]
  split
  · rfl
  · next p s2 hok => rw [h] at hok; cases hok

theorem iterToList_eq_ok {α : Type} (g : α → Int) (st : IterState α)
    (p : α × Option String) (st' : IterState α)
    (h : iterNext g st = .ok (p, st')) :
    iterToList g st = p :: iterToList g st' := by
  rw [iterToList.eq_def]
  split
  · next herr => rw [h] at herr; cases herr
  · next p2 s2 hok =>
    rw [h] at hok
    cases hok
    rfl

theorem iterNext_of_current_none {α : Type} (g : α → Int) (st : IterState α)
    (h : st.currentObject = none) : iterNext g st = .error .StopIteration := by
  obtain ⟨sl, cur, nxt, a, d⟩ := st
  simp only at h
  subst h
  rfl

theorem iterToList_of_current_none {α : Type} (g : α → Int) (st : IterState α)
    (h : st.currentObject = none) : iterToList g st = [] :=
  iterToList_eq_err g st .StopIteration (iterNext_of_current_none g st h)

theorem iterNext_stateAt (L : List Obj) (s : Int) (t : Nat)
    (ht : t + 1 < L.length) :
    iterNext Obj.start (stateAt L s t) =
      .ok ((L.get ⟨t, by omega⟩, tokNext L s (t + 1)), stateAt L s (t + 1)) := by
  have h0 : t < L.length := by omega
  have hs1 : startAt L (t + 1) = (L.get ⟨t + 1, ht⟩).start :=
    startAt_get L (t + 1) ht
  have hpop := pop_drop L (t + 2)
  have htok : tokNext L s (t + 1)
      = some (formatToken (anchorAt L s (t + 1)) (distAt L s (t + 1))) := by
    simp [tokNext, ht]
  by_cases hmove : startAt L (t + 1) > anchorAt L s t
  · have ha : anchorAt L s (t + 1) = startAt L (t + 1) := by
      simp only [anchorAt, if_pos hmove]
    have hd : distAt L s (t + 1) = 0 := by
      simp only [distAt, if_pos hmove]
    rw [hs1] at hmove
    simp only [iterNext, stateAt, List.getElem?_eq_getElem h0,
      List.getElem?_eq_getElem ht, hpop, hmove, if_pos, htok, ha, hd, hs1,
      decide_eq_true hmove]
    simp [List.getElem?_eq_getElem ht, List.get_eq_getElem]
    intro hcon
    have hb : (L.get ⟨t + 1, ht⟩).start = L[t + 1].start := by simp
    omega
  · have ha : anchorAt L s (t + 1) = anchorAt L s t := by
      simp only [anchorAt, if_neg hmove]
    have hd : distAt L s (t + 1) = distAt L s t + 1 := by
      simp only [distAt, if_neg hmove]
    rw [hs1] at hmove
    simp only [iterNext, stateAt, List.getElem?_eq_getElem h0,
      List.getElem?_eq_getElem ht, hpop, hmove, htok, ha, hd, hs1,
      decide_eq_false hmove]
    simp [List.getElem?_eq_getElem ht, List.get_eq_getElem]
    intro hcon
    have hb : (L.get ⟨t + 1, ht⟩).start = L[t + 1].start := by simp
    omega

theorem iterNext_stateAt_last (L : List Obj) (s : Int) (t : Nat)
    (ht : t + 1 = L.length) :
    iterNext Obj.start (stateAt L s t) =
      .ok ((L.get ⟨t, by omega⟩, none),
        ⟨[], none, none, some (anchorAt L s t), some ((distAt L s t : Int))⟩) := by
  have h0 : t < L.length := by omega
  have hn1 : L[t + 1]? = none := List.getElem?_eq_none (by omega)
  have hdrop : L.drop (t + 2) = [] := List.drop_eq_nil_of_le (by omega)
  simp only [iterNext, stateAt, List.getElem?_eq_getElem h0, hn1, hdrop, pop]
  simp [List.get_eq_getElem]

theorem iterToList_stateAt (L : List Obj) (s : Int) :
    ∀ t, iterToList Obj.start (stateAt L s t) = pairListFrom L s t := by
  have hterm : ∀ (fuel t : Nat), L.length - t ≤ fuel →
      iterToList Obj.start (stateAt L s t) = pairListFrom L s t := by
    intro fuel
    induction fuel with
    | zero =>
      intro t hfuel
      have ht : L.length ≤ t := by omega
      have hcur : (stateAt L s t).currentObject = none := by
        simp [stateAt, List.getElem?_eq_none ht]
      rw [iterToList_of_current_none _ _ hcur, pairListFrom]
      rw [dif_neg (show ¬ t < L.length by omega)]
    | succ m ih =>
      intro t hfuel
      by_cases ht : t < L.length
      · rcases Nat.lt_or_ge (t + 1) L.length with ht1 | ht1
        · rw [iterToList_eq_ok _ _ _ _ (iterNext_stateAt L s t ht1)]
          rw [ih (t + 1) (by omega)]
          conv_rhs => rw [pairListFrom]
          rw [dif_pos ht]
        · have hlast : t + 1 = L.length := by omega
          rw [iterToList_eq_ok _ _ _ _ (iterNext_stateAt_last L s t hlast)]
          rw [iterToList_of_current_none _ _ (by simp)]
          conv_rhs => rw [pairListFrom]
          rw [dif_pos ht]
          have htk : tokNext L s (t + 1) = none := by simp [tokNext, hlast]
          rw [htk, pairListFrom, dif_neg (show ¬ t + 1 < L.length by omega)]
      · have hcur : (stateAt L s t).currentObject = none := by
          simp [stateAt, List.getElem?_eq_none (show L.length ≤ t by omega)]
        rw [iterToList_of_current_none _ _ hcur, pairListFrom, dif_neg ht]
  intro t
  exact hterm (L.length - t) t (le_refl _)

theorem pairListFrom_map_fst (L : List Obj) (s : Int) :
    ∀ t, (pairListFrom L s t).map Prod.fst = L.drop t := by
  have hterm : ∀ (fuel t : Nat), L.length - t ≤ fuel →
      (pairListFrom L s t).map Prod.fst = L.drop t := by
    intro fuel
    induction fuel with
    | zero =>
      intro t hfuel
      rw [pairListFrom, dif_neg (by omega), List.drop_eq_nil_of_le (by omega)]
      rfl
    | succ m ih =>
      intro t hfuel
      by_cases ht : t < L.length
      · rw [pairListFrom, dif_pos ht, List.map_cons, ih (t + 1) (by omega),
          List.drop_eq_getElem_cons ht]
        rfl
      · rw [pairListFrom, dif_neg ht, List.drop_eq_nil_of_le (by omega)]
        rfl
  intro t
  exact hterm (L.length - t) t (le_refl _)

/-! ## Resumption: re-opening the scan at a token lands exactly on the
in-flight state -/

theorem sorted_dropWhile_filter (a : Int) :
    ∀ (l : List Obj), l.Pairwise (fun x y => x.start ≤ y.start) →
      l.dropWhile (fun o => decide (o.start < a)) =
        l.filter (fun o => decide (a ≤ o.start)) := by
  intro l
  induction l with
  | nil => intro _; rfl
  | cons x xs ih =>
    intro hp
    obtain ⟨hhead, htail⟩ := List.pairwise_cons.mp hp
    by_cases hx : x.start < a
    · rw [List.dropWhile_cons, if_pos (by simp [hx]),
        List.filter_cons_of_neg (by simp; omega)]
      exact ih htail
    · rw [List.dropWhile_cons, if_neg (by simp [hx]),
        List.filter_cons_of_pos (by simp; omega)]
      congr 1
      symm
      rw [List.filter_eq_self]
      intro y hy
      have := hhead y hy
      simp
      omega

theorem intervalSearch_filter_ge (U : List Obj)
    (hpos : ∀ o ∈ U, o.start < o.stop) (s e a : Int) (hsa : s < a) :
    (intervalSearch U a e).filter (fun o => decide (a ≤ o.start)) =
      (intervalSearch U s e).filter (fun o => decide (a ≤ o.start)) := by
  unfold intervalSearch
  rw [List.filter_filter, List.filter_filter]
  apply List.filter_congr
  intro o ho
  have hos := hpos o ho
  by_cases h1 : a ≤ o.start
  · have h2 : a < o.stop := by omega
    have h3 : s < o.stop := by omega
    simp [h1, h2, h3]
  · simp [h1]

theorem intervalSearch_sorted (U : List Obj)
    (hsort : U.Pairwise (fun x y => x.start ≤ y.start)) (a b : Int) :
    (intervalSearch U a b).Pairwise (fun x y => x.start ≤ y.start) :=
  hsort.filter _

theorem initialiseIteration_stateAt {ε : Type} (U : List Obj) (s e : Int)
    (req : SearchRequest ε) (hs : req.start = s) (he : req.end_ = e)
    (hne : intervalSearch U s e ≠ []) :
    initialiseIteration Obj.start (intervalSearch U) req
      = stateAt (intervalSearch U s e) s 0 := by
  obtain ⟨c, rest, hcons⟩ := List.exists_cons_of_ne_nil hne
  have hget0 : (intervalSearch U s e)[0]? = some c := by
    rw [hcons]; simp
  have hstart0 : startAt (intervalSearch U s e) 0 = c.start := by
    simp [startAt, hget0]
  have hdrop1 : (intervalSearch U s e).drop 1 = rest := by
    rw [hcons]; simp
  have hpop : pop rest = ((intervalSearch U s e)[1]?,
      (intervalSearch U s e).drop 2) := by
    rw [← hdrop1, pop_drop]
  have hanchor0 : anchorAt (intervalSearch U s e) s 0
      = if c.start > s then c.start else s := by
    simp only [anchorAt, hstart0]
  have hlhs : initialiseIteration Obj.start (intervalSearch U) req
      = ⟨(c :: rest).drop 2, some c, (c :: rest)[1]?,
          some (if c.start > s then c.start else s), some 0⟩ := by
    unfold initialiseIteration
    rw [hs, he, hcons]
    cases rest <;> simp [pop]
  have hrhs : stateAt (intervalSearch U s e) s 0
      = ⟨(c :: rest).drop 2, some c, (c :: rest)[1]?,
          some (if c.start > s then c.start else s), some 0⟩ := by
    unfold stateAt
    rw [hget0, hanchor0, hcons]
    simp [distAt]
  rw [hlhs, hrhs]

/-- Reduce the constructor to `_pickUpIteration` once the token parses. -/
theorem mkIntervalIterator_pickUp {α ε : Type} (g : α → Int)
    (search : Int → Int → List α) (req : SearchRequest ε) (tok : String)
    (htok : req.pageToken = some tok) (a o : Int)
    (hparse : parsePageToken tok 2 = .ok [a, o]) :
    mkIntervalIterator g search req = pickUpIteration g search req a o := by
  simp only [mkIntervalIterator, htok, hparse, Except.bind]

/-- Phase-1 reduction of `_pickUpIteration`. -/
theorem pickUpIteration_phase1 {α ε : Type} (g : α → Int)
    (search : Int → Int → List α) (req : SearchRequest ε) (a o : Int)
    (ha : a = req.start) (x : α) (xs : List α)
    (hsearch : search a req.end_ = x :: xs)
    (res : Except GAError (α × List α))
    (hskip : skipForward o.toNat x xs = res) :
    pickUpIteration g search req a o
      = res.bind (fun p => .ok ⟨(pop p.2).2, some p.1, (pop p.2).1,
          some a, some o⟩) := by
  unfold pickUpIteration
  rw [hsearch]
  simp only [popE, Except.bind]
  rw [if_pos ha, hskip]

/-- Phase-2 reduction of `_pickUpIteration`. -/
theorem pickUpIteration_phase2 {α ε : Type} (g : α → Int)
    (search : Int → Int → List α) (req : SearchRequest ε) (a o : Int)
    (ha : ¬ a = req.start) (x : α) (xs : List α)
    (hsearch : search a req.end_ = x :: xs)
    (res : Except GAError (α × List α))
    (hskip : (skipLowStarts g a x xs).bind
      (fun p => skipAnchorTies g a o.toNat p.1 p.2) = res) :
    pickUpIteration g search req a o
      = res.bind (fun p => .ok ⟨(pop p.2).2, some p.1, (pop p.2).1,
          some a, some o⟩) := by
  unfold pickUpIteration
  rw [hsearch]
  simp only [popE, Except.bind]
  rw [if_neg ha, ← hskip]
  cases skipLowStarts g a x xs with
  | error err => rfl
  | ok p => rfl

/-- `_pickUpIteration` on an empty re-opened scan dies on the very first
`next` with `StopIteration`. -/
theorem pickUpIteration_empty {α ε : Type} (g : α → Int)
    (search : Int → Int → List α) (req : SearchRequest ε) (a o : Int)
    (hsearch : search a req.end_ = []) :
    pickUpIteration g search req a o = .error .StopIteration := by
  unfold pickUpIteration
  rw [hsearch]
  rfl

theorem get_idx_congr {α : Type} (l : List α) (i j : Nat)
    (hi : i < l.length) (hj : j < l.length) (h : i = j) :
    l.get ⟨i, hi⟩ = l.get ⟨j, hj⟩ := by
  subst h
  rfl

theorem get_drop_idx {α : Type} (l : List α) (n i : Nat)
    (h : n + i < l.length) (hlen : i < (l.drop n).length) :
    (l.drop n).get ⟨i, hlen⟩ = l.get ⟨n + i, h⟩ := by
  simp [List.get_eq_getElem, List.getElem_drop]

theorem mkIntervalIterator_resume {ε : Type} (U : List Obj) (s e : Int)
    (hsort : U.Pairwise (fun x y => x.start ≤ y.start))
    (hpos : ∀ o ∈ U, o.start < o.stop)
    (t : Nat) (ht : t < (intervalSearch U s e).length)
    (req : SearchRequest ε) (hs : req.start = s) (he : req.end_ = e)
    (htok : req.pageToken = some (formatToken
      (anchorAt (intervalSearch U s e) s t)
      ((distAt (intervalSearch U s e) s t : Int)))) :
    mkIntervalIterator Obj.start (intervalSearch U) req
      = .ok (stateAt (intervalSearch U s e) s t) := by
  have hsortL := intervalSearch_sorted U hsort s e
  have hanc := anchorAt_closed (intervalSearch U s e) s hsortL t ht
  obtain ⟨hdle, hds, hrun⟩ := distAt_inv (intervalSearch U s e) s hsortL t ht
  have hdropt : (intervalSearch U s e).drop t
      = (intervalSearch U s e).get ⟨t, ht⟩
        :: (intervalSearch U s e).drop (t + 1) := by
    rw [List.drop_eq_getElem_cons ht]
    rfl
  have hpop1 : pop ((intervalSearch U s e).drop (t + 1))
      = ((intervalSearch U s e)[t + 1]?, (intervalSearch U s e).drop (t + 2)) :=
    pop_drop _ _
  have hstate : stateAt (intervalSearch U s e) s t
      = ⟨(intervalSearch U s e).drop (t + 2),
          some ((intervalSearch U s e).get ⟨t, ht⟩),
          (intervalSearch U s e)[t + 1]?,
          some (anchorAt (intervalSearch U s e) s t),
          some ((distAt (intervalSearch U s e) s t : Int))⟩ := by
    unfold stateAt
    rw [List.getElem?_eq_getElem ht]
    rfl
  rw [mkIntervalIterator_pickUp Obj.start (intervalSearch U) req _ htok _ _
    (parsePageToken_formatToken _ _)]
  by_cases hcase : anchorAt (intervalSearch U s e) s t = s
  · -- phase 1: anchor still at the request start; blind skip of distAt
    have hdt : distAt (intervalSearch U s e) s t = t := hds hcase
    have hne : intervalSearch U s e ≠ [] := by
      intro hcon; rw [hcon] at ht; simp at ht
    obtain ⟨c, rest, hcons⟩ := List.exists_cons_of_ne_nil hne
    have hsearch : intervalSearch U (anchorAt (intervalSearch U s e) s t)
        req.end_ = c :: rest := by rw [hcase, he, hcons]
    have hskip : skipForward
        ((distAt (intervalSearch U s e) s t : Int)).toNat c rest
        = .ok ((intervalSearch U s e).get ⟨t, ht⟩,
            (intervalSearch U s e).drop (t + 1)) := by
      rw [Int.toNat_natCast, hdt]
      apply skipForward_drop
      rw [← hcons]
      exact hdropt
    rw [pickUpIteration_phase1 Obj.start (intervalSearch U) req _ _
      (by rw [hs]; exact hcase) c rest hsearch _ hskip]
    rw [hstate]
    show Except.ok _ = _
    rw [hpop1]
  · -- phase 2: the anchor has advanced beyond the request start
    have hsa : s < anchorAt (intervalSearch U s e) s t := by
      have := anchorAt_ge (intervalSearch U s e) s hsortL ht
      omega
    obtain ⟨hties, hbound⟩ := hrun hsa
    have hj : t - distAt (intervalSearch U s e) s t ≤ t := by omega
    have hdw : (intervalSearch U (anchorAt (intervalSearch U s e) s t) e).dropWhile
        (fun o => decide (o.start < anchorAt (intervalSearch U s e) s t))
        = (intervalSearch U s e).drop
            (t - distAt (intervalSearch U s e) s t) := by
      rw [sorted_dropWhile_filter _ _ (intervalSearch_sorted U hsort _ e),
        intervalSearch_filter_ge U hpos s e _ hsa,
        ← sorted_dropWhile_filter _ _ hsortL]
      apply dropWhile_eq_drop_of_index
      · omega
      · intro i hi hlen
        simp only [decide_eq_true_eq]
        rcases hbound with h0 | hlt
        · omega
        · have hmono := startAt_mono (intervalSearch U s e) hsortL
            (show i ≤ t - distAt (intervalSearch U s e) s t - 1 by omega)
            (show t - distAt (intervalSearch U s e) s t - 1
              < (intervalSearch U s e).length by omega)
          rw [startAt_get _ i hlen] at hmono
          omega
      · intro hk
        simp only [decide_eq_false_iff_not]
        have hjv := hties (t - distAt (intervalSearch U s e) s t) (le_refl _) hj
        rw [startAt_get _ _ hk] at hjv
        omega
    -- the re-opened scan is non-empty: the current object is still in it
    have hmem : (intervalSearch U s e).get ⟨t, ht⟩
        ∈ intervalSearch U (anchorAt (intervalSearch U s e) s t) e := by
      have hmemL : (intervalSearch U s e).get ⟨t, ht⟩ ∈ intervalSearch U s e :=
        List.get_mem _ _ _
      have hmemU : (intervalSearch U s e).get ⟨t, ht⟩ ∈ U :=
        List.mem_of_mem_filter hmemL
      have hlt : ((intervalSearch U s e).get ⟨t, ht⟩).start < e := by
        have := List.of_mem_filter hmemL
        simp at this
        exact this.1
      have hstop := hpos _ hmemU
      have hstartt : ((intervalSearch U s e).get ⟨t, ht⟩).start
          = anchorAt (intervalSearch U s e) s t := by
        have := hties t hj (le_refl t)
        rw [startAt_get _ _ ht] at this
        exact this
      apply List.mem_filter.mpr
      refine ⟨hmemU, ?_⟩
      simp only [List.get_eq_getElem] at hlt hstop hstartt
      simp
      omega
    have hne2 : intervalSearch U (anchorAt (intervalSearch U s e) s t) e ≠ [] :=
      List.ne_nil_of_mem hmem
    obtain ⟨x, xs, hcons2⟩ := List.exists_cons_of_ne_nil hne2
    have hsearch : intervalSearch U (anchorAt (intervalSearch U s e) s t)
        req.end_ = x :: xs := by rw [he, hcons2]
    -- the two skipping loops land on the `t`-th object of the original scan
    have hskip : (skipLowStarts Obj.start (anchorAt (intervalSearch U s e) s t)
          x xs).bind
        (fun p => skipAnchorTies Obj.start (anchorAt (intervalSearch U s e) s t)
          ((distAt (intervalSearch U s e) s t : Int)).toNat p.1 p.2)
        = .ok ((intervalSearch U s e).get ⟨t, ht⟩,
            (intervalSearch U s e).drop (t + 1)) := by
      have hlow := skipLowStarts_dropWhile Obj.start
        (anchorAt (intervalSearch U s e) s t) xs x
      rw [← hcons2, hdw] at hlow
      have hjlt : t - distAt (intervalSearch U s e) s t
          < (intervalSearch U s e).length := by omega
      have hdropj : (intervalSearch U s e).drop
          (t - distAt (intervalSearch U s e) s t)
          = (intervalSearch U s e).get ⟨t - distAt (intervalSearch U s e) s t, hjlt⟩
            :: (intervalSearch U s e).drop
              (t - distAt (intervalSearch U s e) s t + 1) := by
        rw [List.drop_eq_getElem_cons hjlt]
        rfl
      rw [hdropj] at hlow
      rw [hlow]
      show skipAnchorTies Obj.start (anchorAt (intervalSearch U s e) s t)
        ((distAt (intervalSearch U s e) s t : Int)).toNat _ _ = _
      rw [Int.toNat_natCast]
      apply skipAnchorTies_drop
      · rw [← hdropj, List.drop_drop]
        have harith : t - distAt (intervalSearch U s e) s t
            + distAt (intervalSearch U s e) s t = t := by omega
        rw [harith]
        exact hdropt
      · intro i hilt hlen2
        have hq : t - distAt (intervalSearch U s e) s t + i
            < (intervalSearch U s e).length := by omega
        have hval := hties (t - distAt (intervalSearch U s e) s t + i)
          (by omega) (by omega)
        rw [startAt_get _ _ hq] at hval
        cases i with
        | zero =>
          show Obj.start ((intervalSearch U s e).get
            ⟨t - distAt (intervalSearch U s e) s t, hjlt⟩) = _
          rw [get_idx_congr _ _ (t - distAt (intervalSearch U s e) s t + 0)
            hjlt hq (by omega)]
          exact hval
        | succ i2 =>
          have hlen3 : i2 < ((intervalSearch U s e).drop
              (t - distAt (intervalSearch U s e) s t + 1)).length := by
            simp only [List.length_cons, List.length_drop] at hlen2 ⊢
            omega
          show Obj.start (((intervalSearch U s e).drop
              (t - distAt (intervalSearch U s e) s t + 1)).get ⟨i2, hlen3⟩) = _
          rw [get_drop_idx _ _ _ (show t - distAt (intervalSearch U s e) s t
            + 1 + i2 < (intervalSearch U s e).length by omega) hlen3]
          rw [get_idx_congr _ _ (t - distAt (intervalSearch U s e) s t
            + (i2 + 1)) _ hq (by omega)]
          exact hval
    rw [pickUpIteration_phase2 Obj.start (intervalSearch U) req _ _
      (by rw [hs]; exact fun hcon => hcase hcon) x xs hsearch _ hskip]
    rw [hstate]
    show Except.ok _ = _
    rw [hpop1]

/-! ## Driving pages over the delivery stream -/

/-- The token a client holds when it is about to fetch the page starting
at scan position `t`: none for the fresh request, the emitted token
otherwise. -/
def resumeTok (L : List Obj) (s : Int) (t : Nat) : Option String :=
  if t = 0 then none else tokNext L s t

theorem driveLoop_pairListFrom (L : List Obj) (s : Int)
    (isFull : List Obj → Bool) :
    ∀ (t : Nat), t < L.length → ∀ (acc : List Obj) (tok0 : Option String),
      ∃ m, 1 ≤ m ∧ t + m ≤ L.length ∧
        driveLoop isFull (pairListFrom L s t) acc tok0
          = (acc ++ (L.drop t).take m, tokNext L s (t + m)) := by
  have hterm : ∀ (fuel t : Nat), L.length - t ≤ fuel → t < L.length →
      ∀ acc tok0, ∃ m, 1 ≤ m ∧ t + m ≤ L.length ∧
        driveLoop isFull (pairListFrom L s t) acc tok0
          = (acc ++ (L.drop t).take m, tokNext L s (t + m)) := by
    intro fuel
    induction fuel with
    | zero => intro t hfuel ht; omega
    | succ k ih =>
      intro t hfuel ht acc tok0
      have hdropt : L.drop t = L.get ⟨t, ht⟩ :: L.drop (t + 1) := by
        rw [List.drop_eq_getElem_cons ht]
        rfl
      rw [pairListFrom, dif_pos ht]
      simp only [driveLoop]
      by_cases hfull : isFull (acc ++ [L.get ⟨t, ht⟩])
      · refine ⟨1, le_refl 1, by omega, ?_⟩
        rw [if_pos hfull, hdropt]
        rfl
      · rw [if_neg hfull]
        by_cases ht1 : t + 1 < L.length
        · obtain ⟨m2, hm1, hm2, hm3⟩ := ih (t + 1) (by omega) ht1
            (acc ++ [L.get ⟨t, ht⟩]) (tokNext L s (t + 1))
          refine ⟨m2 + 1, by omega, by omega, ?_⟩
          rw [hm3, hdropt]
          have harith : t + 1 + m2 = t + (m2 + 1) := by omega
          rw [harith]
          simp only [List.take_succ_cons, List.append_assoc,
            List.singleton_append]
        · rw [pairListFrom, dif_neg ht1]
          refine ⟨1, le_refl 1, by omega, ?_⟩
          simp only [driveLoop]
          rw [hdropt]
          rfl
  intro t ht
  exact hterm (L.length - t) t (le_refl _) ht

theorem runSearchRequestModel_ok {α ε : Type} (d : Int) (maxLen : Nat)
    (objSize : α → Nat)
    (gen : SearchRequest ε → Except GAError (List (α × Option String)))
    (req : SearchRequest ε) (P : Int)
    (hpage : req.pageSize = some P) (hP : ¬ P ≤ 0)
    (pairs : List (α × Option String))
    (hgen : gen { req with pageSize := some P } = .ok pairs) :
    runSearchRequestModel d maxLen objSize gen req
      = .ok (driveLoop (isFullModel P maxLen objSize) pairs [] none) := by
  unfold runSearchRequestModel
  simp only [hpage, if_neg hP, hgen, Except.bind]

theorem runIntervalPage_spec (U : List Obj) (s e : Int)
    (hsort : U.Pairwise (fun x y => x.start ≤ y.start))
    (hpos : ∀ o ∈ U, o.start < o.stop)
    (P : Int) (hP : 1 ≤ P) (maxLen : Nat) (objSize : Obj → Nat)
    (t : Nat) (ht : t < (intervalSearch U s e).length) :
    ∃ m, 1 ≤ m ∧ t + m ≤ (intervalSearch U s e).length ∧
      runIntervalPage U s e P maxLen objSize
          (resumeTok (intervalSearch U s e) s t)
        = .ok (((intervalSearch U s e).drop t).take m,
            tokNext (intervalSearch U s e) s (t + m)) := by
  have hne : intervalSearch U s e ≠ [] := by
    intro hcon; rw [hcon] at ht; simp at ht
  have hstate : mkIntervalIterator Obj.start (intervalSearch U)
      ({ start := s, end_ := e,
         pageToken := resumeTok (intervalSearch U s e) s t,
         pageSize := some P, effects := none } : SearchRequest Unit)
      = .ok (stateAt (intervalSearch U s e) s t) := by
    by_cases ht0 : t = 0
    · subst ht0
      have : resumeTok (intervalSearch U s e) s 0 = none := by
        simp [resumeTok]
      unfold mkIntervalIterator
      rw [this]
      rw [initialiseIteration_stateAt U s e _ rfl rfl hne]
    · have htk : resumeTok (intervalSearch U s e) s t
          = some (formatToken (anchorAt (intervalSearch U s e) s t)
              ((distAt (intervalSearch U s e) s t : Int))) := by
        simp [resumeTok, ht0, tokNext, ht]
      exact mkIntervalIterator_resume U s e hsort hpos t ht _ rfl rfl htk
  have hgen : intervalGenerator U
      ({ start := s, end_ := e,
         pageToken := resumeTok (intervalSearch U s e) s t,
         pageSize := some P, effects := none } : SearchRequest Unit)
      = .ok (pairListFrom (intervalSearch U s e) s t) := by
    unfold intervalGenerator
    rw [hstate]
    simp [Except.map, iterToList_stateAt]
  obtain ⟨m, hm1, hm2, hm3⟩ :=
    driveLoop_pairListFrom (intervalSearch U s e) s
      (isFullModel P maxLen objSize) t ht [] none
  refine ⟨m, hm1, hm2, ?_⟩
  unfold runIntervalPage
  rw [runSearchRequestModel_ok 100 maxLen objSize (intervalGenerator U) _ P
    rfl (by omega) _ hgen]
  rw [hm3]
  simp

theorem collectPages_interval (U : List Obj) (s e : Int)
    (hsort : U.Pairwise (fun x y => x.start ≤ y.start))
    (hpos : ∀ o ∈ U, o.start < o.stop)
    (P : Int) (hP : 1 ≤ P) (maxLen : Nat) (objSize : Obj → Nat) :
    ∀ (fuel t : Nat), (intervalSearch U s e).length - t < fuel →
      (t = 0 ∨ t < (intervalSearch U s e).length) →
      collectPages (runIntervalPage U s e P maxLen objSize) fuel
          (resumeTok (intervalSearch U s e) s t)
        = .ok ((intervalSearch U s e).drop t) := by
  intro fuel
  induction fuel with
  | zero => intro t hfuel _; omega
  | succ k ih =>
    intro t hfuel hcase
    by_cases htlt : t < (intervalSearch U s e).length
    · obtain ⟨m, hm1, hm2, hpage⟩ :=
        runIntervalPage_spec U s e hsort hpos P hP maxLen objSize t htlt
      simp only [collectPages]
      rw [hpage]
      simp only [Except.bind]
      by_cases hend : t + m < (intervalSearch U s e).length
      · have htk : tokNext (intervalSearch U s e) s (t + m)
            = some (formatToken (anchorAt (intervalSearch U s e) s (t + m))
                ((distAt (intervalSearch U s e) s (t + m) : Int))) := by
          simp [tokNext, hend]
        have hrt : resumeTok (intervalSearch U s e) s (t + m)
            = some (formatToken (anchorAt (intervalSearch U s e) s (t + m))
                ((distAt (intervalSearch U s e) s (t + m) : Int))) := by
          simp [resumeTok, show ¬ (t + m = 0) by omega, tokNext, hend]
        rw [htk]
        have hrec := ih (t + m) (by omega) (Or.inr hend)
        rw [hrt] at hrec
        simp only [hrec, Except.map]
        have hdd : ((intervalSearch U s e).drop t).drop m
            = (intervalSearch U s e).drop (t + m) := by
          rw [List.drop_drop]
        rw [← hdd, List.take_append_drop]
      · have hteq : t + m = (intervalSearch U s e).length := by omega
        have htk : tokNext (intervalSearch U s e) s (t + m) = none := by
          simp [tokNext, hend]
        rw [htk]
        have hfull : ((intervalSearch U s e).drop t).take m
            = (intervalSearch U s e).drop t := by
          apply List.take_of_length_le
          simp [List.length_drop]
          omega
        rw [hfull]
    · rcases hcase with h0 | h
      · subst h0
        have hn0 : intervalSearch U s e = [] := by
          cases hx : intervalSearch U s e with
          | nil => rfl
          | cons y ys => rw [hx] at htlt; simp at htlt
        have hpage : runIntervalPage U s e P maxLen objSize
            (resumeTok (intervalSearch U s e) s 0) = .ok ([], none) := by
          have hstate : mkIntervalIterator Obj.start (intervalSearch U)
              ({ start := s, end_ := e,
                 pageToken := resumeTok (intervalSearch U s e) s 0,
                 pageSize := some P, effects := none } : SearchRequest Unit)
              = .ok (⟨[], none, none, none, none⟩ : IterState Obj) := by
            have htk : resumeTok (intervalSearch U s e) s 0 = none := by
              simp [resumeTok]
            unfold mkIntervalIterator
            rw [htk]
            unfold initialiseIteration
            simp only
            rw [hn0]
          have hgen : intervalGenerator U
              ({ start := s, end_ := e,
                 pageToken := resumeTok (intervalSearch U s e) s 0,
                 pageSize := some P, effects := none } : SearchRequest Unit)
              = .ok [] := by
            unfold intervalGenerator
            rw [hstate]
            have : iterToList Obj.start
                (⟨[], none, none, none, none⟩ : IterState Obj) = [] :=
              iterToList_of_current_none _ _ rfl
            simp [Except.map, this]
          unfold runIntervalPage
          rw [runSearchRequestModel_ok 100 maxLen objSize (intervalGenerator U)
            _ P rfl (by omega) _ hgen]
          rfl
        simp only [collectPages]
        rw [hpage]
        simp only [Except.bind]
        rw [hn0]
        rfl
      · omega

/-- The fresh request used for the single unbounded call of C1. -/
def freshIntervalRequest (s e : Int) : SearchRequest Unit :=
  { start := s, end_ := e, pageToken := none, pageSize := none,
    effects := none }

/-- C1 as stated is false: the claim covers every backing scan that is
sorted by start with a repeatable tie order, but a zero-length interval
sitting at the resume anchor is silently dropped. Over the sorted store
`[(5,6), (5,5), (7,9)]` a single request with unbounded page size
delivers all three objects, while paginating at page size 1 delivers
only two: the first page ends with token `5:1`, and resuming re-opens
the overlap scan at start 5, which excludes the zero-length `(5,5)`
(`5 < 5` fails), so the checked skip steps over `(5,6)` and lands on
`(7,9)`. -/
theorem C1_counterexample :
    ([⟨5, 6, 0⟩, ⟨5, 5, 1⟩, ⟨7, 9, 2⟩] : List Obj).Pairwise
        (fun a b => a.start ≤ b.start) ∧
    runIntervalPage [⟨5, 6, 0⟩, ⟨5, 5, 1⟩, ⟨7, 9, 2⟩] 0 100 100 1000000
        (fun _ => 1) none
      = .ok ([⟨5, 6, 0⟩, ⟨5, 5, 1⟩, ⟨7, 9, 2⟩], none) ∧
    collectPages (runIntervalPage [⟨5, 6, 0⟩, ⟨5, 5, 1⟩, ⟨7, 9, 2⟩] 0 100 1
        1000000 (fun _ => 1)) 5 none
      = .ok [⟨5, 6, 0⟩, ⟨7, 9, 2⟩] ∧
    ([⟨5, 6, 0⟩, ⟨7, 9, 2⟩] : List Obj)
      ≠ [⟨5, 6, 0⟩, ⟨5, 5, 1⟩, ⟨7, 9, 2⟩] := by
  have hA1 : iterNext Obj.start
      (⟨[⟨7, 9, 2⟩], some ⟨5, 6, 0⟩, some ⟨5, 5, 1⟩, some 5, some 0⟩
        : IterState Obj)
      = .ok ((⟨5, 6, 0⟩, some "5:1"),
          ⟨[], some ⟨5, 5, 1⟩, some ⟨7, 9, 2⟩, some 5, some 1⟩) := by decide
  have hA2 : iterNext Obj.start
      (⟨[], some ⟨5, 5, 1⟩, some ⟨7, 9, 2⟩, some 5, some 1⟩ : IterState Obj)
      = .ok ((⟨5, 5, 1⟩, some "7:0"),
          ⟨[], some ⟨7, 9, 2⟩, none, some 7, some 0⟩) := by decide
  have hA3 : iterNext Obj.start
      (⟨[], some ⟨7, 9, 2⟩, none, some 7, some 0⟩ : IterState Obj)
      = .ok ((⟨7, 9, 2⟩, none),
          ⟨[], none, none, some 7, some 0⟩) := by decide
  have hA4 : iterNext Obj.start
      (⟨[], none, none, some 7, some 0⟩ : IterState Obj)
      = .error .StopIteration := by decide
  have hlist0 : iterToList Obj.start
      (⟨[⟨7, 9, 2⟩], some ⟨5, 6, 0⟩, some ⟨5, 5, 1⟩, some 5, some 0⟩
        : IterState Obj)
      = [(⟨5, 6, 0⟩, some "5:1"), (⟨5, 5, 1⟩, some "7:0"),
          (⟨7, 9, 2⟩, none)] := by
    rw [iterToList_eq_ok _ _ _ _ hA1, iterToList_eq_ok _ _ _ _ hA2,
      iterToList_eq_ok _ _ _ _ hA3, iterToList_eq_err _ _ _ hA4]
  have hB1 : iterNext Obj.start
      (⟨[], some ⟨7, 9, 2⟩, none, some 5, some 1⟩ : IterState Obj)
      = .ok ((⟨7, 9, 2⟩, none),
          ⟨[], none, none, some 5, some 1⟩) := by decide
  have hB2 : iterNext Obj.start
      (⟨[], none, none, some 5, some 1⟩ : IterState Obj)
      = .error .StopIteration := by decide
  have hlistr : iterToList Obj.start
      (⟨[], some ⟨7, 9, 2⟩, none, some 5, some 1⟩ : IterState Obj)
      = [(⟨7, 9, 2⟩, none)] := by
    rw [iterToList_eq_ok _ _ _ _ hB1, iterToList_eq_err _ _ _ hB2]
  have hmkA : mkIntervalIterator Obj.start
      (intervalSearch [⟨5, 6, 0⟩, ⟨5, 5, 1⟩, ⟨7, 9, 2⟩])
      ({ start := 0, end_ := 100, pageToken := none, pageSize := some 100,
         effects := none } : SearchRequest Unit)
      = .ok (⟨[⟨7, 9, 2⟩], some ⟨5, 6, 0⟩, some ⟨5, 5, 1⟩, some 5, some 0⟩
          : IterState Obj) := by decide
  have hmkB : mkIntervalIterator Obj.start
      (intervalSearch [⟨5, 6, 0⟩, ⟨5, 5, 1⟩, ⟨7, 9, 2⟩])
      ({ start := 0, end_ := 100, pageToken := none, pageSize := some 1,
         effects := none } : SearchRequest Unit)
      = .ok (⟨[⟨7, 9, 2⟩], some ⟨5, 6, 0⟩, some ⟨5, 5, 1⟩, some 5, some 0⟩
          : IterState Obj) := by decide
  have hmkC : mkIntervalIterator Obj.start
      (intervalSearch [⟨5, 6, 0⟩, ⟨5, 5, 1⟩, ⟨7, 9, 2⟩])
      ({ start := 0, end_ := 100, pageToken := some "5:1",
         pageSize := some 1, effects := none } : SearchRequest Unit)
      = .ok (⟨[], some ⟨7, 9, 2⟩, none, some 5, some 1⟩
          : IterState Obj) := by decide
  have hgenA : intervalGenerator [⟨5, 6, 0⟩, ⟨5, 5, 1⟩, ⟨7, 9, 2⟩]
      ({ start := 0, end_ := 100, pageToken := none, pageSize := some 100,
         effects := none } : SearchRequest Unit)
      = .ok [(⟨5, 6, 0⟩, some "5:1"), (⟨5, 5, 1⟩, some "7:0"),
          (⟨7, 9, 2⟩, none)] := by
    unfold intervalGenerator
    rw [hmkA]
    show Except.ok (iterToList Obj.start
      (⟨[⟨7, 9, 2⟩], some ⟨5, 6, 0⟩, some ⟨5, 5, 1⟩, some 5, some 0⟩
        : IterState Obj)) = _
    rw [hlist0]
  have hgenB : intervalGenerator [⟨5, 6, 0⟩, ⟨5, 5, 1⟩, ⟨7, 9, 2⟩]
      ({ start := 0, end_ := 100, pageToken := none, pageSize := some 1,
         effects := none } : SearchRequest Unit)
      = .ok [(⟨5, 6, 0⟩, some "5:1"), (⟨5, 5, 1⟩, some "7:0"),
          (⟨7, 9, 2⟩, none)] := by
    unfold intervalGenerator
    rw [hmkB]
    show Except.ok (iterToList Obj.start
      (⟨[⟨7, 9, 2⟩], some ⟨5, 6, 0⟩, some ⟨5, 5, 1⟩, some 5, some 0⟩
        : IterState Obj)) = _
    rw [hlist0]
  have hgenC : intervalGenerator [⟨5, 6, 0⟩, ⟨5, 5, 1⟩, ⟨7, 9, 2⟩]
      ({ start := 0, end_ := 100, pageToken := some "5:1",
         pageSize := some 1, effects := none } : SearchRequest Unit)
      = .ok [(⟨7, 9, 2⟩, none)] := by
    unfold intervalGenerator
    rw [hmkC]
    show Except.ok (iterToList Obj.start
      (⟨[], some ⟨7, 9, 2⟩, none, some 5, some 1⟩ : IterState Obj)) = _
    rw [hlistr]
  have hsingle : runIntervalPage [⟨5, 6, 0⟩, ⟨5, 5, 1⟩, ⟨7, 9, 2⟩] 0 100 100
      1000000 (fun _ => 1) none
      = .ok ([⟨5, 6, 0⟩, ⟨5, 5, 1⟩, ⟨7, 9, 2⟩], none) := by
    unfold runIntervalPage
    rw [runSearchRequestModel_ok 100 1000000 (fun _ => 1) _ _ 100 rfl
      (by omega) _ hgenA]
    decide
  have hpage1 : runIntervalPage [⟨5, 6, 0⟩, ⟨5, 5, 1⟩, ⟨7, 9, 2⟩] 0 100 1
      1000000 (fun _ => 1) none
      = .ok ([⟨5, 6, 0⟩], some "5:1") := by
    unfold runIntervalPage
    rw [runSearchRequestModel_ok 100 1000000 (fun _ => 1) _ _ 1 rfl
      (by omega) _ hgenB]
    decide
  have hpage2 : runIntervalPage [⟨5, 6, 0⟩, ⟨5, 5, 1⟩, ⟨7, 9, 2⟩] 0 100 1
      1000000 (fun _ => 1) (some "5:1")
      = .ok ([⟨7, 9, 2⟩], none) := by
    unfold runIntervalPage
    rw [runSearchRequestModel_ok 100 1000000 (fun _ => 1) _ _ 1 rfl
      (by omega) _ hgenC]
    decide
  refine ⟨by decide, hsingle, ?_, by decide⟩
  have hrec : collectPages (runIntervalPage
      [⟨5, 6, 0⟩, ⟨5, 5, 1⟩, ⟨7, 9, 2⟩] 0 100 1 1000000 (fun _ => 1))
      (3 + 1) (some "5:1") = .ok [⟨7, 9, 2⟩] := by
    rw [collectPages, hpage2]
    rfl
  show collectPages (runIntervalPage
      [⟨5, 6, 0⟩, ⟨5, 5, 1⟩, ⟨7, 9, 2⟩] 0 100 1 1000000 (fun _ => 1))
      (4 + 1) none = .ok [⟨5, 6, 0⟩, ⟨7, 9, 2⟩]
  rw [collectPages, hpage1]
  show (collectPages (runIntervalPage
      [⟨5, 6, 0⟩, ⟨5, 5, 1⟩, ⟨7, 9, 2⟩] 0 100 1 1000000 (fun _ => 1))
      4 (some "5:1")).map (fun more => [⟨5, 6, 0⟩] ++ more)
    = .ok [⟨5, 6, 0⟩, ⟨7, 9, 2⟩]
  rw [show (4 : Nat) = 3 + 1 from rfl, hrec]
  rfl

/-- C1 amended: for an interval source — a fixed store of positive-length
intervals, scanned in its own repeatable order, non-decreasing by start —
and any page size `P ≥ 1`, re-issuing the search with each response's
`nextPageToken` and concatenating the pages yields exactly the same
objects, in the same order, as the full delivery stream of one fresh
iteration (a single request with unbounded page size); both equal the
overlap scan. The fuel merely bounds the client loop, any value beyond
the object count is enough; the byte budget and object sizes are
arbitrary. -/
theorem C1_interval_pagination_complete (U : List Obj) (s e : Int)
    (hsort : U.Pairwise (fun a b => a.start ≤ b.start))
    (hpos : ∀ o ∈ U, o.start < o.stop)
    (P : Int) (hP : 1 ≤ P) (maxLen : Nat) (objSize : Obj → Nat)
    (fuel : Nat) (hfuel : (intervalSearch U s e).length < fuel) :
    collectPages (runIntervalPage U s e P maxLen objSize) fuel none
        = .ok ((iterToList Obj.start (initialiseIteration Obj.start
            (intervalSearch U) (freshIntervalRequest s e))).map Prod.fst) ∧
      (iterToList Obj.start (initialiseIteration Obj.start (intervalSearch U)
          (freshIntervalRequest s e))).map Prod.fst
        = intervalSearch U s e := by
  have hsingle : (iterToList Obj.start (initialiseIteration Obj.start
      (intervalSearch U) (freshIntervalRequest s e))).map Prod.fst
      = intervalSearch U s e := by
    by_cases hne : intervalSearch U s e = []
    · have hinit : initialiseIteration Obj.start (intervalSearch U)
          (freshIntervalRequest s e)
          = (⟨[], none, none, none, none⟩ : IterState Obj) := by
        unfold initialiseIteration freshIntervalRequest
        simp only
        rw [hne]
      rw [hinit, iterToList_of_current_none _ _ rfl, hne]
      rfl
    · rw [initialiseIteration_stateAt U s e _ rfl rfl hne,
        iterToList_stateAt, pairListFrom_map_fst, List.drop_zero]
  refine ⟨?_, hsingle⟩
  rw [hsingle]
  have hcoll := collectPages_interval U s e hsort hpos P hP maxLen objSize
    fuel 0 (by omega) (Or.inl rfl)
  have hrt0 : resumeTok (intervalSearch U s e) s 0 = none := by
    simp [resumeTok]
  rw [hrt0, List.drop_zero] at hcoll
  exact hcoll

theorem C1_interval_pagination_complete_witness :
    collectPages (runIntervalPage
        [⟨5, 6, 0⟩, ⟨5, 6, 1⟩, ⟨7, 9, 2⟩] 0 100 1 1000000 (fun _ => 1)) 5 none
        = .ok ((iterToList Obj.start (initialiseIteration Obj.start
            (intervalSearch [⟨5, 6, 0⟩, ⟨5, 6, 1⟩, ⟨7, 9, 2⟩])
            (freshIntervalRequest 0 100))).map Prod.fst) ∧
      (iterToList Obj.start (initialiseIteration Obj.start
          (intervalSearch [⟨5, 6, 0⟩, ⟨5, 6, 1⟩, ⟨7, 9, 2⟩])
          (freshIntervalRequest 0 100))).map Prod.fst
        = intervalSearch [⟨5, 6, 0⟩, ⟨5, 6, 1⟩, ⟨7, 9, 2⟩] 0 100 :=
  C1_interval_pagination_complete [⟨5, 6, 0⟩, ⟨5, 6, 1⟩, ⟨7, 9, 2⟩] 0 100
    (by decide) (by decide) 1 (by decide) 1000000 (fun _ => 1) 5 (by decide)

/-! ## C4: the advance step of `IntervalIterator.next` -/

/-- C4: on every `next()` call of an iterator whose current object is
non-null (with the anchor state every constructed iterator carries): if
the lookahead object's start exceeds the current searchAnchor the anchor
becomes that start and the distance resets to 0, otherwise the distance
increments by 1; the returned pair carries the token
`searchAnchor:distanceFromAnchor` (with the updated values) exactly when
a lookahead object exists, and carries no token exactly when the
delivered object is the last one of the stream. -/
theorem C4_iterNext_spec {α : Type} (g : α → Int) (st : IterState α)
    (cur : α) (hcur : st.currentObject = some cur)
    (a d : Int) (ha : st.searchAnchor = some a)
    (hd : st.distanceFromAnchor = some d) :
    ∃ tok st2, iterNext g st = .ok ((cur, tok), st2) ∧
      (∀ nxt, st.nextObject = some nxt → g nxt > a →
        st2.searchAnchor = some (g nxt) ∧ st2.distanceFromAnchor = some 0 ∧
        tok = some (formatToken (g nxt) 0)) ∧
      (∀ nxt, st.nextObject = some nxt → ¬ g nxt > a →
        st2.searchAnchor = some a ∧ st2.distanceFromAnchor = some (d + 1) ∧
        tok = some (formatToken a (d + 1))) ∧
      (tok = none ↔ st.nextObject = none) ∧
      (tok = none ↔ iterToList g st = [(cur, none)]) := by
  obtain ⟨sl, cur0, nxt0, a0, d0⟩ := st
  simp only at hcur ha hd
  subst hcur
  subst ha
  subst hd
  cases nxt0 with
  | none =>
    refine ⟨none, ⟨(pop sl).2, none, (pop sl).1, some a, some d⟩, ?_, ?_, ?_, ?_, ?_⟩
    · simp [iterNext]
    · intro nxt hcon; cases hcon
    · intro nxt hcon; cases hcon
    · simp
    · constructor
      · intro _
        rw [iterToList_eq_ok g _ (cur, none)
            ⟨(pop sl).2, none, (pop sl).1, some a, some d⟩ (by simp [iterNext])]
        rw [iterToList_of_current_none _ _ rfl]
      · intro _; rfl
  | some nxt =>
    by_cases hmove : g nxt > a
    · refine ⟨some (formatToken (g nxt) 0),
        ⟨(pop sl).2, some nxt, (pop sl).1, some (g nxt), some 0⟩, ?_, ?_, ?_, ?_, ?_⟩
      · simp [iterNext, hmove]
      · intro nxt2 hn hgt
        cases hn
        exact ⟨rfl, rfl, rfl⟩
      · intro nxt2 hn hngt
        cases hn
        exact absurd hmove hngt
      · simp
      · constructor
        · intro hcon; cases hcon
        · intro hcon
          rw [iterToList_eq_ok g _ (cur, some (formatToken (g nxt) 0))
              ⟨(pop sl).2, some nxt, (pop sl).1, some (g nxt), some 0⟩
              (by simp [iterNext, hmove])] at hcon
          simp at hcon
    · refine ⟨some (formatToken a (d + 1)),
        ⟨(pop sl).2, some nxt, (pop sl).1, some a, some (d + 1)⟩, ?_, ?_, ?_, ?_, ?_⟩
      · simp [iterNext, hmove]
      · intro nxt2 hn hgt
        cases hn
        exact absurd hgt hmove
      · intro nxt2 hn hngt
        cases hn
        exact ⟨rfl, rfl, rfl⟩
      · simp
      · constructor
        · intro hcon; cases hcon
        · intro hcon
          rw [iterToList_eq_ok g _ (cur, some (formatToken a (d + 1)))
              ⟨(pop sl).2, some nxt, (pop sl).1, some a, some (d + 1)⟩
              (by simp [iterNext, hmove])] at hcon
          simp at hcon

theorem C4_iterNext_spec_witness :
    ∃ tok st2, iterNext Obj.start
        (⟨[], some ⟨5, 6, 0⟩, some ⟨7, 9, 1⟩, some 5, some 0⟩ : IterState Obj)
        = .ok ((⟨5, 6, 0⟩, tok), st2) ∧
      (∀ nxt, (⟨[], some ⟨5, 6, 0⟩, some ⟨7, 9, 1⟩, some 5, some 0⟩
          : IterState Obj).nextObject = some nxt → Obj.start nxt > 5 →
        st2.searchAnchor = some (Obj.start nxt) ∧
        st2.distanceFromAnchor = some 0 ∧
        tok = some (formatToken (Obj.start nxt) 0)) ∧
      (∀ nxt, (⟨[], some ⟨5, 6, 0⟩, some ⟨7, 9, 1⟩, some 5, some 0⟩
          : IterState Obj).nextObject = some nxt → ¬ Obj.start nxt > 5 →
        st2.searchAnchor = some 5 ∧ st2.distanceFromAnchor = some (0 + 1) ∧
        tok = some (formatToken 5 (0 + 1))) ∧
      (tok = none ↔ (⟨[], some ⟨5, 6, 0⟩, some ⟨7, 9, 1⟩, some 5, some 0⟩
          : IterState Obj).nextObject = none) ∧
      (tok = none ↔ iterToList Obj.start
          (⟨[], some ⟨5, 6, 0⟩, some ⟨7, 9, 1⟩, some 5, some 0⟩ : IterState Obj)
        = [(⟨5, 6, 0⟩, none)]) :=
  C4_iterNext_spec Obj.start _ ⟨5, 6, 0⟩ rfl 5 0 rfl rfl

/-! ## C2/C3: concrete behaviour of pagination under ties -/

/-- The four-object source with starts `[5,5,5,7]` of C2. -/
def C2U : List Obj := [⟨5, 6, 0⟩, ⟨5, 6, 1⟩, ⟨5, 6, 2⟩, ⟨7, 9, 3⟩]

/-- C2 as stated is false: over starts `[5,5,5,7]` the token delivered
with the first object is `"5:1"`, not `"5:0"` (the distance is
incremented before the token is formatted). -/
theorem C2_counterexample :
    (iterNext Obj.start (initialiseIteration Obj.start (intervalSearch C2U)
        (freshIntervalRequest 0 100))).map (fun p => p.1.2)
      = .ok (some "5:1") ∧ ("5:1" : String) ≠ "5:0" := by
  constructor
  · decide
  · decide

/-- C2 amended: with starts `[5,5,5,7]` and a fresh request starting at 0,
the three start-5 objects are delivered with tokens `5:1`, `5:2` and the
third with `7:0`; resuming with `5:1` yields the second, with `5:2` the
third, and with `5:3` the start-7 object — whose state keeps
`searchAnchor = 5` (the anchor only advances when a lookahead object
exceeds it) and which is delivered without a further token. -/
theorem C2_amended :
    iterNext Obj.start (initialiseIteration Obj.start (intervalSearch C2U)
        (freshIntervalRequest 0 100))
      = .ok ((⟨5, 6, 0⟩, some "5:1"),
          ⟨[⟨7, 9, 3⟩], some ⟨5, 6, 1⟩, some ⟨5, 6, 2⟩, some 5, some 1⟩) ∧
    iterNext Obj.start
        (⟨[⟨7, 9, 3⟩], some ⟨5, 6, 1⟩, some ⟨5, 6, 2⟩, some 5, some 1⟩
          : IterState Obj)
      = .ok ((⟨5, 6, 1⟩, some "5:2"),
          ⟨[], some ⟨5, 6, 2⟩, some ⟨7, 9, 3⟩, some 5, some 2⟩) ∧
    iterNext Obj.start
        (⟨[], some ⟨5, 6, 2⟩, some ⟨7, 9, 3⟩, some 5, some 2⟩ : IterState Obj)
      = .ok ((⟨5, 6, 2⟩, some "7:0"),
          ⟨[], some ⟨7, 9, 3⟩, none, some 7, some 0⟩) ∧
    iterNext Obj.start
        (⟨[], some ⟨7, 9, 3⟩, none, some 7, some 0⟩ : IterState Obj)
      = .ok ((⟨7, 9, 3⟩, none), ⟨[], none, none, some 7, some 0⟩) ∧
    mkIntervalIterator Obj.start (intervalSearch C2U)
        ({ start := 0, end_ := 100, pageToken := some "5:1",
           pageSize := some 1, effects := none } : SearchRequest Unit)
      = .ok ⟨[⟨7, 9, 3⟩], some ⟨5, 6, 1⟩, some ⟨5, 6, 2⟩, some 5, some 1⟩ ∧
    mkIntervalIterator Obj.start (intervalSearch C2U)
        ({ start := 0, end_ := 100, pageToken := some "5:2",
           pageSize := some 1, effects := none } : SearchRequest Unit)
      = .ok ⟨[], some ⟨5, 6, 2⟩, some ⟨7, 9, 3⟩, some 5, some 2⟩ ∧
    mkIntervalIterator Obj.start (intervalSearch C2U)
        ({ start := 0, end_ := 100, pageToken := some "5:3",
           pageSize := some 1, effects := none } : SearchRequest Unit)
      = .ok ⟨[], some ⟨7, 9, 3⟩, none, some 5, some 3⟩ ∧
    iterNext Obj.start
        (⟨[], some ⟨7, 9, 3⟩, none, some 5, some 3⟩ : IterState Obj)
      = .ok ((⟨7, 9, 3⟩, none), ⟨[], none, none, some 5, some 3⟩) := by
  refine ⟨?_, ?_, ?_, ?_, ?_, ?_, ?_, ?_⟩ <;> decide

/-- The source of C3's counterexample: only two objects share start 5. -/
def C3U : List Obj := [⟨5, 6, 0⟩, ⟨5, 6, 1⟩, ⟨7, 9, 2⟩]

/-- C3 as stated is false: resuming with token `5:2` over a source with
only two start-5 objects does not raise `BadPageTokenException` — it
silently resumes at the start-7 object. -/
theorem C3_counterexample :
    mkIntervalIterator Obj.start (intervalSearch C3U)
        ({ start := 0, end_ := 100, pageToken := some "5:2",
           pageSize := some 1, effects := none } : SearchRequest Unit)
      = .ok ⟨[], some ⟨7, 9, 2⟩, none, some 5, some 2⟩ ∧
    ∀ err : GAError, mkIntervalIterator Obj.start (intervalSearch C3U)
        ({ start := 0, end_ := 100, pageToken := some "5:2",
           pageSize := some 1, effects := none } : SearchRequest Unit)
      ≠ .error err := by
  constructor
  · decide
  · intro err hcon
    have h1 : mkIntervalIterator Obj.start (intervalSearch C3U)
        ({ start := 0, end_ := 100, pageToken := some "5:2",
           pageSize := some 1, effects := none } : SearchRequest Unit)
      = .ok ⟨[], some ⟨7, 9, 2⟩, none, some 5, some 2⟩ := by decide
    rw [h1] at hcon
    cases hcon

/-- C3 amended: resuming with token `5:2` against a request start other
than 5 re-opens the scan at 5 and drops the starts below 5; writing `ys`
for what remains, the outcome is exactly: scan exhaustion
(`StopIteration`, Python's loop-control error, not
`BadPageTokenException`) when `ys` runs out within the two checked skip
positions, `BadPageTokenException` when one of the first two members of
`ys` has a start other than 5, and a silent successful resume at the
third member of `ys` when the first two both start at 5 — so fewer than
three start-5 objects trigger `BadPageTokenException` only in the
mismatch cases, not universally. -/
theorem C3_amended {ε : Type} (U : List Obj) (s e : Int)
    (req : SearchRequest ε) (hs : req.start = s) (he : req.end_ = e)
    (hs5 : s ≠ 5) (htok : req.pageToken = some "5:2") :
    ((intervalSearch U 5 e).dropWhile (fun o => decide (o.start < 5)) = [] →
      mkIntervalIterator Obj.start (intervalSearch U) req
        = .error .StopIteration) ∧
    (∀ y0 ys,
      (intervalSearch U 5 e).dropWhile (fun o => decide (o.start < 5))
        = y0 :: ys → y0.start ≠ 5 →
      mkIntervalIterator Obj.start (intervalSearch U) req
        = .error (.BadPageTokenException "")) ∧
    (∀ y0,
      (intervalSearch U 5 e).dropWhile (fun o => decide (o.start < 5))
        = [y0] → y0.start = 5 →
      mkIntervalIterator Obj.start (intervalSearch U) req
        = .error .StopIteration) ∧
    (∀ y0 y1 ys,
      (intervalSearch U 5 e).dropWhile (fun o => decide (o.start < 5))
        = y0 :: y1 :: ys → y0.start = 5 → y1.start ≠ 5 →
      mkIntervalIterator Obj.start (intervalSearch U) req
        = .error (.BadPageTokenException "")) ∧
    (∀ y0 y1,
      (intervalSearch U 5 e).dropWhile (fun o => decide (o.start < 5))
        = [y0, y1] → y0.start = 5 → y1.start = 5 →
      mkIntervalIterator Obj.start (intervalSearch U) req
        = .error .StopIteration) ∧
    (∀ y0 y1 z zs,
      (intervalSearch U 5 e).dropWhile (fun o => decide (o.start < 5))
        = y0 :: y1 :: z :: zs → y0.start = 5 → y1.start = 5 →
      mkIntervalIterator Obj.start (intervalSearch U) req
        = .ok ⟨(pop zs).2, some z, (pop zs).1, some 5, some 2⟩) := by
  have hparse : parsePageToken "5:2" 2 = .ok [5, 2] := by decide
  have hmk := mkIntervalIterator_pickUp Obj.start (intervalSearch U) req _
    htok 5 2 hparse
  have ha : ¬ (5 : Int) = req.start := by
    rw [hs]
    intro hcon
    exact hs5 hcon.symm
  refine ⟨?_, ?_, ?_, ?_, ?_, ?_⟩
  · intro hdw
    cases hscan : intervalSearch U 5 e with
    | nil =>
      rw [hmk]
      apply pickUpIteration_empty
      rw [he, hscan]
    | cons x xs =>
      have hlow := skipLowStarts_dropWhile Obj.start 5 xs x
      rw [← hscan, hdw] at hlow
      rw [hmk, pickUpIteration_phase2 Obj.start (intervalSearch U) req 5 2 ha
        x xs (by rw [he, hscan]) (.error .StopIteration) (by rw [hlow]; rfl)]
      rfl
  · intro y0 ys hdw hy0
    cases hscan : intervalSearch U 5 e with
    | nil =>
      rw [hscan] at hdw
      cases hdw
    | cons x xs =>
      have hlow := skipLowStarts_dropWhile Obj.start 5 xs x
      rw [← hscan, hdw] at hlow
      have hties : skipAnchorTies Obj.start 5 2 y0 ys
          = .error (.BadPageTokenException "") := by
        cases ys with
        | nil =>
          rw [show (2 : Nat) = 1 + 1 from rfl, skipAnchorTies,
            if_pos (by simpa using hy0)]
        | cons z zs =>
          rw [show (2 : Nat) = 1 + 1 from rfl, skipAnchorTies,
            if_pos (by simpa using hy0)]
      rw [hmk, pickUpIteration_phase2 Obj.start (intervalSearch U) req 5 2 ha
        x xs (by rw [he, hscan]) (.error (.BadPageTokenException ""))
        (by rw [hlow]; show skipAnchorTies Obj.start 5 2 y0 ys = _
            exact hties)]
      rfl
  · intro y0 hdw hy0
    cases hscan : intervalSearch U 5 e with
    | nil =>
      rw [hscan] at hdw
      cases hdw
    | cons x xs =>
      have hlow := skipLowStarts_dropWhile Obj.start 5 xs x
      rw [← hscan, hdw] at hlow
      have hties : skipAnchorTies Obj.start 5 2 y0 []
          = .error .StopIteration := by
        rw [show (2 : Nat) = 1 + 1 from rfl, skipAnchorTies,
          if_neg (by simpa using hy0)]
      rw [hmk, pickUpIteration_phase2 Obj.start (intervalSearch U) req 5 2 ha
        x xs (by rw [he, hscan]) (.error .StopIteration)
        (by rw [hlow]; show skipAnchorTies Obj.start 5 2 y0 [] = _
            exact hties)]
      rfl
  · intro y0 y1 ys hdw hy0 hy1
    cases hscan : intervalSearch U 5 e with
    | nil =>
      rw [hscan] at hdw
      cases hdw
    | cons x xs =>
      have hlow := skipLowStarts_dropWhile Obj.start 5 xs x
      rw [← hscan, hdw] at hlow
      have hties : skipAnchorTies Obj.start 5 2 y0 (y1 :: ys)
          = .error (.BadPageTokenException "") := by
        rw [show (2 : Nat) = 1 + 1 from rfl, skipAnchorTies,
          if_neg (by simpa using hy0)]
        cases ys with
        | nil =>
          rw [show (1 : Nat) = 0 + 1 from rfl, skipAnchorTies,
            if_pos (by simpa using hy1)]
        | cons z zs =>
          rw [show (1 : Nat) = 0 + 1 from rfl, skipAnchorTies,
            if_pos (by simpa using hy1)]
      rw [hmk, pickUpIteration_phase2 Obj.start (intervalSearch U) req 5 2 ha
        x xs (by rw [he, hscan]) (.error (.BadPageTokenException ""))
        (by rw [hlow]; show skipAnchorTies Obj.start 5 2 y0 (y1 :: ys) = _
            exact hties)]
      rfl
  · intro y0 y1 hdw hy0 hy1
    cases hscan : intervalSearch U 5 e with
    | nil =>
      rw [hscan] at hdw
      cases hdw
    | cons x xs =>
      have hlow := skipLowStarts_dropWhile Obj.start 5 xs x
      rw [← hscan, hdw] at hlow
      have hties : skipAnchorTies Obj.start 5 2 y0 [y1]
          = .error .StopIteration := by
        rw [show (2 : Nat) = 1 + 1 from rfl, skipAnchorTies,
          if_neg (by simpa using hy0)]
        rw [show (1 : Nat) = 0 + 1 from rfl, skipAnchorTies,
          if_neg (by simpa using hy1)]
      rw [hmk, pickUpIteration_phase2 Obj.start (intervalSearch U) req 5 2 ha
        x xs (by rw [he, hscan]) (.error .StopIteration)
        (by rw [hlow]; show skipAnchorTies Obj.start 5 2 y0 [y1] = _
            exact hties)]
      rfl
  · intro y0 y1 z zs hdw hy0 hy1
    cases hscan : intervalSearch U 5 e with
    | nil =>
      rw [hscan] at hdw
      cases hdw
    | cons x xs =>
      have hlow := skipLowStarts_dropWhile Obj.start 5 xs x
      rw [← hscan, hdw] at hlow
      have hties : skipAnchorTies Obj.start 5 2 y0 (y1 :: z :: zs)
          = .ok (z, zs) := by
        rw [show (2 : Nat) = 1 + 1 from rfl, skipAnchorTies,
          if_neg (by simpa using hy0)]
        rw [show (1 : Nat) = 0 + 1 from rfl, skipAnchorTies,
          if_neg (by simpa using hy1)]
        rfl
      rw [hmk, pickUpIteration_phase2 Obj.start (intervalSearch U) req 5 2 ha
        x xs (by rw [he, hscan]) (.ok (z, zs))
        (by rw [hlow]; show skipAnchorTies Obj.start 5 2 y0 (y1 :: z :: zs) = _
            exact hties)]
      rfl

theorem C3_amended_witness :
    mkIntervalIterator Obj.start
        (intervalSearch [(⟨5, 6, 0⟩ : Obj), ⟨7, 9, 1⟩])
        ({ start := 0, end_ := 100, pageToken := some "5:2",
           pageSize := some 1, effects := none } : SearchRequest Unit)
      = .error (.BadPageTokenException "") :=
  (C3_amended [(⟨5, 6, 0⟩ : Obj), ⟨7, 9, 1⟩] 0 100 _ rfl rfl (by decide)
      rfl).2.2.2.1
    ⟨5, 6, 0⟩ ⟨7, 9, 1⟩ [] (by decide) (by decide) (by decide)

/-! ## C8: page-size validation in `runSearchRequest` -/

/-- C8: in `runSearchRequest`, an absent `pageSize` is replaced by the
server-wide default before anything else happens, and a present
`pageSize ≤ 0` raises `BadPageSizeException` no matter what the object
generator would produce — the generator is never consulted. -/
theorem C8_pageSize_validation {α ε : Type} (d : Int) (maxLen : Nat)
    (objSize : α → Nat) (req : SearchRequest ε) :
    (req.pageSize = none →
      ∀ gen : SearchRequest ε → Except GAError (List (α × Option String)),
        runSearchRequestModel d maxLen objSize gen req
          = runSearchRequestModel d maxLen objSize gen
              { req with pageSize := some d }) ∧
    (∀ p : Int, req.pageSize = some p → p ≤ 0 →
      ∀ gen : SearchRequest ε → Except GAError (List (α × Option String)),
        runSearchRequestModel d maxLen objSize gen req
          = .error (.BadPageSizeException p)) := by
  constructor
  · intro hps gen
    simp only [runSearchRequestModel, hps]
  · intro p hps hple gen
    simp only [runSearchRequestModel, hps, if_pos hple]

theorem C8_pageSize_validation_witness :
    runSearchRequestModel (ε := Unit) 100 1000 (fun _ : Obj => 1)
        (intervalGenerator [⟨5, 6, 0⟩]) (freshIntervalRequest 0 10)
      = runSearchRequestModel 100 1000 (fun _ : Obj => 1)
          (intervalGenerator [⟨5, 6, 0⟩])
          { freshIntervalRequest 0 10 with pageSize := some 100 } ∧
    runSearchRequestModel (ε := Unit) 100 1000 (fun _ : Obj => 1)
        (intervalGenerator [⟨5, 6, 0⟩])
        { start := 0, end_ := 10, pageToken := none, pageSize := some 0,
          effects := none }
      = .error (.BadPageSizeException 0) :=
  ⟨(C8_pageSize_validation 100 1000 (fun _ => 1)
      (freshIntervalRequest 0 10)).1 rfl _,
   (C8_pageSize_validation 100 1000 (fun _ => 1)
      { start := 0, end_ := 10, pageToken := none, pageSize := some 0,
        effects := none }).2 0 rfl (by decide) _⟩

/-! ## C6: flat pagination over an index-addressable collection -/

/-- The single page delivered for position `k` of a size-`N` collection at
page size 1: the object at `k`, with token `str(k+1)` unless `k` is last. -/
def flatPage {α : Type} (g : Int → α) (N : Nat) (k : Nat) :
    List α × Option String :=
  ([g (k : Int)],
    if (k : Int) + 1 < (N : Int) then some (intToString ((k : Int) + 1))
    else none)

theorem runFlatPage_one {α : Type} (g : Int → α) (N maxLen : Nat)
    (objSize : α → Nat) (i : Nat) (hi : i < N) :
    runFlatPage g N 1 maxLen objSize
        (if i = 0 then none else some (intToString (i : Int)))
      = .ok ([g (i : Int)],
          if (i : Int) + 1 < (N : Int) then some (intToString ((i : Int) + 1))
          else none) := by
  have htn : ((N : Int) - (i : Int)).toNat = N - i := by omega
  have hgen : topLevelObjectGenerator (ε := Unit) g N
      { start := 0, end_ := 0,
        pageToken := if i = 0 then none else some (intToString (i : Int)),
        pageSize := some 1, effects := none }
      = .ok (flatYield g N (N - i) (i : Int)) := by
    by_cases h0 : i = 0
    · subst h0
      simp [topLevelObjectGenerator]
    · simp only [if_neg h0, topLevelObjectGenerator]
      simp [parsePageToken_intToString, htn, Except.bind, bind]
  obtain ⟨m, hm⟩ : ∃ m, N - i = m + 1 := ⟨N - i - 1, by omega⟩
  rw [hm] at hgen
  rw [runFlatPage, runSearchRequestModel_ok 100 maxLen objSize _ _ 1 rfl
    (by omega) _ hgen]
  rw [flatYield]
  simp [driveLoop, isFullModel]

theorem collectPagesList_flat {α : Type} (g : Int → α) (N maxLen : Nat)
    (objSize : α → Nat) :
    ∀ (fuel i : Nat), i < N → N - i ≤ fuel →
      collectPagesList (runFlatPage g N 1 maxLen objSize) fuel
          (if i = 0 then none else some (intToString (i : Int)))
        = .ok (((List.range N).drop i).map (flatPage g N)) := by
  intro fuel
  induction fuel with
  | zero => intro i hi hf; omega
  | succ f ih =>
    intro i hi hf
    have hil : i < (List.range N).length := by simpa using hi
    have hdrop : (List.range N).drop i = i :: (List.range N).drop (i + 1) := by
      rw [List.drop_eq_getElem_cons hil]
      simp
    have hpage := runFlatPage_one g N maxLen objSize i hi
    by_cases hlast : (i : Int) + 1 < (N : Int)
    · rw [if_pos hlast] at hpage
      rw [collectPagesList, hpage]
      have hih := ih (i + 1) (by omega) (by omega)
      rw [if_neg (by omega : ¬ i + 1 = 0)] at hih
      have hcast : ((i + 1 : Nat) : Int) = (i : Int) + 1 := by push_cast; ring
      rw [hcast] at hih
      show (collectPagesList (runFlatPage g N 1 maxLen objSize) f
          (some (intToString ((i : Int) + 1)))).map
          (fun more =>
            ([g (i : Int)], some (intToString ((i : Int) + 1))) :: more)
        = _
      rw [hih, hdrop]
      simp [Except.map, flatPage, hlast]
    · rw [if_neg hlast] at hpage
      rw [collectPagesList, hpage]
      have hnil : (List.range N).drop (i + 1) = [] :=
        List.drop_eq_nil_of_le (by simp; omega)
      show Except.ok [([g (i : Int)], (none : Option String))] = _
      rw [hdrop, hnil]
      simp [flatPage, hlast]

/-- C6: flat pagination over an index-addressable collection of size `N`
(`Backend._topLevelObjectGenerator`): size 0 yields no objects and no
token; size 1 yields exactly the one object with no token; and at page
size 1 a size-`N` collection paginates into `N` pages whose tokens are
`"1", "2", ..., str(N-1)` with the last page tokenless. -/
theorem C6_flat_pagination {α : Type} (g : Int → α) (maxLen : Nat)
    (objSize : α → Nat) :
    (∀ P : Int, 1 ≤ P →
      runFlatPage g 0 P maxLen objSize none = .ok ([], none)) ∧
    (∀ P : Int, 1 ≤ P →
      runFlatPage g 1 P maxLen objSize none = .ok ([g 0], none)) ∧
    (∀ N fuel : Nat, 1 ≤ N → N ≤ fuel →
      collectPagesList (runFlatPage g N 1 maxLen objSize) fuel none
        = .ok ((List.range N).map (fun k : Nat =>
            ([g (k : Int)],
              if (k : Int) + 1 < (N : Int)
              then some (intToString ((k : Int) + 1)) else none)))) := by
  refine ⟨?_, ?_, ?_⟩
  · intro P hP
    rw [runFlatPage, runSearchRequestModel_ok 100 maxLen objSize _ _ P rfl
      (by omega) [] (by simp [topLevelObjectGenerator, flatYield])]
    rfl
  · intro P hP
    rw [runFlatPage, runSearchRequestModel_ok 100 maxLen objSize _ _ P rfl
      (by omega) [(g 0, none)]
      (by simp [topLevelObjectGenerator, flatYield])]
    simp [driveLoop]
  · intro N fuel hN hfuel
    have h := collectPagesList_flat g N maxLen objSize fuel 0 (by omega)
      (by omega)
    rw [if_pos rfl] at h
    rw [h]
    simp only [List.drop_zero]
    rfl

theorem C6_flat_pagination_witness :
    collectPagesList
        (runFlatPage (fun i : Int => i) 3 1 1000 (fun _ => 1)) 3 none
      = .ok [([0], some "1"), ([1], some "2"), ([2], none)] :=
  ((C6_flat_pagination (fun i : Int => i) 1000 (fun _ => 1)).2.2 3 3
    (by decide) (by decide)).trans (by decide)

/-! ## C10: the fullness check runs after the add -/

/-- The loop invariant behind C10: starting from an accumulator that is
empty or not yet full, a non-empty generator stream always produces a
non-empty result whose serialized size overshoots the byte budget by at
most the size of the last accepted object (the object added in the same
iteration as the breaking fullness check). -/
theorem driveLoop_size_bound {α : Type} (P : Int) (maxLen : Nat)
    (objSize : α → Nat) :
    ∀ (pairs : List (α × Option String)) (acc : List α) (tok : Option String),
      (acc = [] ∨ ¬ isFullModel P maxLen objSize acc = true) →
      pairs ≠ [] →
      ∃ front last tok2,
        driveLoop (isFullModel P maxLen objSize) pairs acc tok
          = (front ++ [last], tok2) ∧
        ((front ++ [last]).map objSize).sum ≤ maxLen + objSize last := by
  intro pairs
  induction pairs with
  | nil => intro acc tok hacc hne; exact absurd rfl hne
  | cons p rest ih =>
    intro acc tok hacc hne
    obtain ⟨o, t⟩ := p
    have hsum : (acc.map objSize).sum ≤ maxLen := by
      rcases hacc with h | h
      · subst h; simp
      · have := h
        simp only [isFullModel, Bool.or_eq_true, decide_eq_true_eq,
          not_or, not_le] at this
        omega
    have hbound : ((acc ++ [o]).map objSize).sum ≤ maxLen + objSize o := by
      simp only [List.map_append, List.sum_append, List.map_cons,
        List.map_nil, List.sum_cons, List.sum_nil]
      omega
    rw [driveLoop]
    by_cases hfull : isFullModel P maxLen objSize (acc ++ [o]) = true
    · refine ⟨acc, o, t, ?_, hbound⟩
      simp only [hfull, if_true]
    · cases rest with
      | nil =>
        refine ⟨acc, o, t, ?_, hbound⟩
        simp only [hfull]
        rw [if_neg (by simp [hfull]), driveLoop]
      | cons q qs =>
        obtain ⟨front, last, tok2, hdl, hb⟩ :=
          ih (acc ++ [o]) t (Or.inr hfull) (by simp)
        refine ⟨front, last, tok2, ?_, hb⟩
        rw [if_neg (by simp [hfull])]
        exact hdl

/-- C10: in `runSearchRequest` the fullness check (page-size and byte
budgets) runs only after the current object is added to the response
builder: whenever the generator yields at least one object, the response
holds at least one object, and its serialized size can exceed the byte
budget `maxLen` by at most the size of the last accepted object. -/
theorem C10_fullness_after_add {α ε : Type} (d : Int) (maxLen : Nat)
    (objSize : α → Nat)
    (gen : SearchRequest ε → Except GAError (List (α × Option String)))
    (req : SearchRequest ε) (P : Int)
    (hpage : req.pageSize = some P) (hP : 1 ≤ P)
    (pairs : List (α × Option String))
    (hgen : gen { req with pageSize := some P } = .ok pairs)
    (hne : pairs ≠ []) :
    ∃ front last tok,
      runSearchRequestModel d maxLen objSize gen req
        = .ok (front ++ [last], tok) ∧
      ((front ++ [last]).map objSize).sum ≤ maxLen + objSize last := by
  rw [runSearchRequestModel_ok d maxLen objSize gen req P hpage (by omega)
    pairs hgen]
  obtain ⟨front, last, tok2, hdl, hb⟩ :=
    driveLoop_size_bound P maxLen objSize pairs [] none (Or.inl rfl) hne
  exact ⟨front, last, tok2, by rw [hdl], hb⟩

theorem C10_fullness_after_add_witness :
    ∃ front last tok,
      runSearchRequestModel (ε := Unit) 100 3 (fun n : Nat => n)
          (fun _ => .ok [(5, none)])
          { start := 0, end_ := 0, pageToken := none, pageSize := some 1,
            effects := none }
        = .ok (front ++ [last], tok) ∧
      ((front ++ [last]).map (fun n : Nat => n)).sum ≤ 3 + last :=
  C10_fullness_after_add 100 3 (fun n => n) (fun _ => .ok [(5, none)])
    { start := 0, end_ := 0, pageToken := none, pageSize := some 1,
      effects := none } 1 rfl (by decide) [(5, none)] rfl (by decide)

/-! ## C9: effect filtering in `VariantAnnotationsIntervalIterator` -/

theorem foldl_or_any {a : Type} (f : a → Bool) :
    ∀ (l : List a) (b : Bool),
      l.foldl (fun ret x => f x || ret) b = (b || l.any f) := by
  intro l
  induction l with
  | nil => intro b; simp
  | cons x xs ih =>
    intro b
    rw [List.foldl_cons, ih, List.any_cons]
    simp only [Bool.or_assoc, Bool.or_comm, Bool.or_left_comm]

theorem matchAnyEffects_any (effects : List ReqEffect) (e : Effect) :
    matchAnyEffects effects e
      = effects.any (fun re => checkIdEquality re e) := by
  have hf := foldl_or_any (fun re => checkIdEquality re e) effects false
  simp only [] at hf
  unfold matchAnyEffects
  rw [hf]
  simp

theorem filterEffect_any (effects : List ReqEffect) (te : TranscriptEffect) :
    filterEffect effects te
      = te.effects.any (fun e =>
          effects.any (fun re => checkIdEquality re e)) := by
  have hf := foldl_or_any (fun e => matchAnyEffects effects e) te.effects false
  simp only [] at hf
  unfold filterEffect
  rw [hf]
  simp [matchAnyEffects_any]

theorem filterVAnn_empty (v : VAnnObj) : filterVAnn [] v = true := by
  simp [filterVAnn]

theorem filterVAnn_any (effects : List ReqEffect) (h : effects ≠ [])
    (v : VAnnObj) :
    filterVAnn effects v
      = v.transcriptEffects.any (fun te =>
          te.effects.any (fun e =>
            effects.any (fun re => checkIdEquality re e))) := by
  have hlen : effects.length ≠ 0 := by
    cases effects
    · exact absurd rfl h
    · simp
  unfold filterVAnn
  by_cases hte : v.transcriptEffects = []
  · rw [if_pos ⟨hlen, hte⟩, hte]
    simp
  · rw [if_neg (fun hc => hte hc.2), if_neg hlen]
    have hfun : (fun (ret : Bool) (teff : TranscriptEffect) =>
        if filterEffect effects teff then true else ret)
        = (fun ret teff => filterEffect effects teff || ret) := by
      funext ret teff
      cases filterEffect effects teff <;> simp
    rw [hfun]
    have hf := foldl_or_any (fun teff => filterEffect effects teff)
      v.transcriptEffects false
    simp only [] at hf
    rw [hf]
    simp [filterEffect_any]

theorem removeNonMatching_empty (ann : VAnnObj) :
    removeNonMatchingTranscriptEffects [] ann = ann := by
  simp [removeNonMatchingTranscriptEffects]

theorem removeNonMatching_filter (effects : List ReqEffect) (h : effects ≠ [])
    (ann : VAnnObj) :
    removeNonMatchingTranscriptEffects effects ann
      = { ann with transcriptEffects :=
          ann.transcriptEffects.filter (fun te =>
            te.effects.any (fun e =>
              effects.any (fun re => checkIdEquality re e))) } := by
  unfold removeNonMatchingTranscriptEffects
  rw [if_neg h]
  congr 1
  apply List.filter_congr
  intro te _
  have hfun : (fun (add : Bool) (e : Effect) =>
      if matchAnyEffects effects e then true else add)
      = (fun add e => matchAnyEffects effects e || add) := by
    funext add e
    cases matchAnyEffects effects e <;> simp
  rw [hfun]
  have hf := foldl_or_any (fun e => matchAnyEffects effects e) te.effects false
  simp only [] at hf
  rw [hf]
  simp [matchAnyEffects_any]

theorem vannToList_eq_err (effects : List ReqEffect) (s : IterState VAnnObj)
    (err : GAError) (h : iterNext VAnnObj.start s = .error err) :
    vannToList effects s = [] := by
  rw [vannToList.eq_def]
  split
  · rfl
  · next v t s2 hok => rw [h] at hok; cases hok

theorem vannToList_eq_ok (effects : List ReqEffect) (s : IterState VAnnObj)
    (v : VAnnObj) (t : Option String) (s' : IterState VAnnObj)
    (h : iterNext VAnnObj.start s = .ok ((v, t), s')) :
    vannToList effects s
      = if filterVAnn effects v
        then (removeNonMatchingTranscriptEffects effects v, t)
          :: vannToList effects s'
        else vannToList effects s' := by
  rw [vannToList.eq_def]
  split
  · next herr => rw [h] at herr; cases herr
  · next v2 t2 s2 hok =>
    rw [h] at hok
    cases hok
    rfl

theorem vannToList_filterMap (effects : List ReqEffect) :
    ∀ (n : Nat) (s : IterState VAnnObj), iterMeasure s ≤ n →
      vannToList effects s
        = (iterToList VAnnObj.start s).filterMap (fun p =>
            if filterVAnn effects p.1
            then some (removeNonMatchingTranscriptEffects effects p.1, p.2)
            else none) := by
  intro n
  induction n with
  | zero =>
    intro s hs
    cases hnext : iterNext VAnnObj.start s with
    | error err =>
      rw [vannToList_eq_err effects s err hnext,
        iterToList_eq_err VAnnObj.start s err hnext]
      rfl
    | ok ps =>
      exfalso
      have := iterMeasure_decreasing VAnnObj.start s ps.1 ps.2 (by rw [hnext])
      omega
  | succ k ih =>
    intro s hs
    cases hnext : iterNext VAnnObj.start s with
    | error err =>
      rw [vannToList_eq_err effects s err hnext,
        iterToList_eq_err VAnnObj.start s err hnext]
      rfl
    | ok ps =>
      obtain ⟨⟨v, t⟩, s'⟩ := ps
      have hlt := iterMeasure_decreasing VAnnObj.start s (v, t) s' hnext
      have ihs := ih s' (by omega)
      rw [iterToList_eq_ok VAnnObj.start s (v, t) s' hnext,
        vannToList_eq_ok effects s v t s' hnext, ihs]
      by_cases hf : filterVAnn effects v
      · rw [if_pos hf]
        simp [List.filterMap_cons, hf]
      · rw [if_neg hf]
        simp [List.filterMap_cons, hf]

/-- C9: under an empty requested-effect filter the wrapped iterator yields
every annotation of the base iterator unchanged, and under a non-empty
filter it yields exactly the annotations with at least one transcript
effect containing an effect whose id matches a requested effect — each
with its transcript-effect list restricted to those matching transcript
effects — and excludes every other annotation entirely. -/
theorem C9_effect_filtering (effects : List ReqEffect)
    (s : IterState VAnnObj) :
    vannToList [] s = iterToList VAnnObj.start s ∧
    (effects ≠ [] →
      vannToList effects s
        = (iterToList VAnnObj.start s).filterMap (fun p =>
            if p.1.transcriptEffects.any (fun te =>
                te.effects.any (fun e =>
                  effects.any (fun re => checkIdEquality re e)))
            then some
              ({ p.1 with transcriptEffects :=
                  p.1.transcriptEffects.filter (fun te =>
                    te.effects.any (fun e =>
                      effects.any (fun re => checkIdEquality re e))) }, p.2)
            else none)) := by
  constructor
  · rw [vannToList_filterMap [] (iterMeasure s) s le_rfl]
    have hfun : (fun (p : VAnnObj × Option String) =>
        if filterVAnn [] p.1
        then some (removeNonMatchingTranscriptEffects [] p.1, p.2)
        else none) = (fun p => some p) := by
      funext p
      rw [filterVAnn_empty, removeNonMatching_empty]
      simp
    rw [hfun]
    simp
  · intro h
    rw [vannToList_filterMap effects (iterMeasure s) s le_rfl]
    have hfun : (fun (p : VAnnObj × Option String) =>
        if filterVAnn effects p.1
        then some (removeNonMatchingTranscriptEffects effects p.1, p.2)
        else none)
        = (fun (p : VAnnObj × Option String) =>
            if p.1.transcriptEffects.any (fun te =>
                te.effects.any (fun e =>
                  effects.any (fun re => checkIdEquality re e)))
            then some
              ({ p.1 with transcriptEffects :=
                  p.1.transcriptEffects.filter (fun te =>
                    te.effects.any (fun e =>
                      effects.any (fun re => checkIdEquality re e))) }, p.2)
            else none) := by
      funext p
      rw [filterVAnn_any effects h, removeNonMatching_filter effects h]
    rw [hfun]

theorem C9_effect_filtering_witness :
    vannToList [⟨some "SO:0001"⟩]
        ⟨[], some ⟨5, 6, 0, [⟨[⟨"SO:0001"⟩]⟩, ⟨[⟨"SO:0002"⟩]⟩]⟩,
          some ⟨7, 9, 1, [⟨[⟨"SO:0002"⟩]⟩]⟩, some 5, some 0⟩
      = (iterToList VAnnObj.start
          ⟨[], some ⟨5, 6, 0, [⟨[⟨"SO:0001"⟩]⟩, ⟨[⟨"SO:0002"⟩]⟩]⟩,
            some ⟨7, 9, 1, [⟨[⟨"SO:0002"⟩]⟩]⟩, some 5, some 0⟩).filterMap
          (fun p =>
            if p.1.transcriptEffects.any (fun te =>
                te.effects.any (fun e =>
                  [(⟨some "SO:0001"⟩ : ReqEffect)].any
                    (fun re => checkIdEquality re e)))
            then some
              ({ p.1 with transcriptEffects :=
                  p.1.transcriptEffects.filter (fun te =>
                    te.effects.any (fun e =>
                      [(⟨some "SO:0001"⟩ : ReqEffect)].any
                        (fun re => checkIdEquality re e))) }, p.2)
            else none) :=
  (C9_effect_filtering [⟨some "SO:0001"⟩]
      ⟨[], some ⟨5, 6, 0, [⟨[⟨"SO:0001"⟩]⟩, ⟨[⟨"SO:0002"⟩]⟩]⟩,
        some ⟨7, 9, 1, [⟨[⟨"SO:0002"⟩]⟩]⟩, some 5, some 0⟩).2 (by decide)

/-! ## C5: arity strictness of the compound-id parser -/

theorem escChars_cons (c : Char) (f : List Char) :
    escChars (c :: f)
      = if c = '"' then '\\' :: '"' :: escChars f else c :: escChars f := rfl

theorem parseQuoted_quote (rest : List Char) :
    parseQuoted ('"' :: rest) = parseEscString rest := by
  simp [parseQuoted]

theorem splitAux_nil : ∀ m : Nat, splitAux m [] = none := by
  intro m
  cases m <;> rfl

theorem parseEscString_cons (c : Char) (rest : List Char) :
    parseEscString (c :: rest)
      = if c = '\\' then
          (match rest with
           | [] => none
           | d :: rest2 => (parseEscString rest2).map (fun p => (d :: p.1, p.2)))
        else if c = '"' then some ([], rest)
        else (parseEscString rest).map (fun p => (c :: p.1, p.2)) := by
  rw [parseEscString.eq_def]

theorem prefix_append_cases {α : Type} :
    ∀ (A u : List α) {B : List α}, u <+: A ++ B →
      u <+: A ∨ ∃ v, u = A ++ v ∧ v <+: B := by
  intro A
  induction A with
  | nil => intro u B h; exact Or.inr ⟨u, rfl, h⟩
  | cons a A ih =>
    intro u B h
    cases u with
    | nil => exact Or.inl List.nil_prefix
    | cons x u2 =>
      rw [List.cons_append, List.cons_prefix_cons] at h
      obtain ⟨rfl, h2⟩ := h
      rcases ih u2 h2 with h1 | ⟨v, rfl, hv⟩
      · exact Or.inl (List.cons_prefix_cons.mpr ⟨rfl, h1⟩)
      · exact Or.inr ⟨v, rfl, hv⟩

theorem parseEscString_escChars (rest : List Char) :
    ∀ f : List Char, '\\' ∉ f →
      parseEscString (escChars f ++ '"' :: rest) = some (f, rest) := by
  intro f
  induction f with
  | nil =>
    intro _
    show parseEscString ('"' :: rest) = some ([], rest)
    rw [parseEscString_cons, if_neg (by decide), if_pos rfl]
  | cons c f ih =>
    intro h
    have hc : c ≠ '\\' := fun hcon => h (List.mem_cons.mpr (Or.inl hcon.symm))
    have hf : '\\' ∉ f := fun hm => h (List.mem_cons.mpr (Or.inr hm))
    rw [escChars_cons]
    by_cases hq : c = '"'
    · subst hq
      rw [if_pos rfl]
      show parseEscString ('\\' :: ('"' :: (escChars f ++ '"' :: rest))) = _
      rw [parseEscString_cons, if_pos rfl]
      show (parseEscString (escChars f ++ '"' :: rest)).map
        (fun p => ('"' :: p.1, p.2)) = _
      rw [ih hf]
      rfl
    · rw [if_neg hq]
      show parseEscString (c :: (escChars f ++ '"' :: rest)) = _
      rw [parseEscString_cons, if_neg hc, if_neg hq, ih hf]
      rfl

theorem parseEscStringPref :
    ∀ f : List Char, '\\' ∉ f → ∀ u, u <+: escChars f →
      parseEscString u = none := by
  intro f
  induction f with
  | nil =>
    intro _ u hu
    rw [List.prefix_nil.mp hu]
    rfl
  | cons c f ih =>
    intro h u hu
    have hc : c ≠ '\\' := fun hcon => h (List.mem_cons.mpr (Or.inl hcon.symm))
    have hf : '\\' ∉ f := fun hm => h (List.mem_cons.mpr (Or.inr hm))
    rw [escChars_cons] at hu
    by_cases hq : c = '"'
    · rw [if_pos hq] at hu
      cases u with
      | nil => rfl
      | cons x u2 =>
        rw [List.cons_prefix_cons] at hu
        obtain ⟨rfl, hu2⟩ := hu
        cases u2 with
        | nil => rfl
        | cons y u3 =>
          rw [List.cons_prefix_cons] at hu2
          obtain ⟨rfl, hu3⟩ := hu2
          rw [parseEscString_cons, if_pos rfl]
          show (parseEscString u3).map (fun p => ('"' :: p.1, p.2)) = none
          rw [ih hf u3 hu3]
          rfl
    · rw [if_neg hq] at hu
      cases u with
      | nil => rfl
      | cons x u2 =>
        rw [List.cons_prefix_cons] at hu
        obtain ⟨rfl, hu2⟩ := hu
        rw [parseEscString_cons, if_neg hc, if_neg hq, ih hf u2 hu2]
        rfl

theorem splitAux_succ (m : Nat) (cs : List Char) :
    splitAux (m + 1) cs
      = match parseQuoted cs with
        | none => none
        | some (f, r) =>
          match r with
          | [] => none
          | c :: r2 =>
            if c = ']' then (if r2 = [] then some [f] else none)
            else if c = ',' then
              (splitAux m (dropSpaces r2)).map (fun fs => f :: fs)
            else none := by
  rw [splitAux.eq_def]

theorem dropSpaces_quote (w : List Char) : dropSpaces ('"' :: w) = '"' :: w := by
  simp [dropSpaces]

theorem tailChars_length :
    ∀ fields : List (List Char), fields.length ≤ (tailChars fields).length := by
  intro fields
  induction fields with
  | nil => simp [tailChars]
  | cons g gs ih =>
    show (g :: gs).length ≤ (',' :: fieldChars g ++ tailChars gs).length
    simp only [List.length_cons, List.cons_append, List.length_append] at ih ⊢
    omega

theorem splitAux_exact :
    ∀ (fields : List (List Char)) (f : List Char),
      '\\' ∉ f → (∀ g ∈ fields, '\\' ∉ g) →
      ∀ fuel, fields.length + 1 ≤ fuel →
        splitAux fuel (fieldChars f ++ tailChars fields)
          = some (f :: fields) := by
  intro fields
  induction fields with
  | nil =>
    intro f hf _ fuel hfuel
    obtain ⟨m, rfl⟩ : ∃ m, fuel = m + 1 := ⟨fuel - 1, by omega⟩
    have harr : fieldChars f ++ tailChars []
        = '"' :: (escChars f ++ '"' :: [']']) := by
      simp [fieldChars, tailChars]
    rw [harr, splitAux_succ, parseQuoted_quote,
      parseEscString_escChars [']'] f hf]
    rfl
  | cons g gs ih =>
    intro f hf hgs fuel hfuel
    obtain ⟨m, rfl⟩ : ∃ m, fuel = m + 1 := ⟨fuel - 1, by omega⟩
    have harr : fieldChars f ++ tailChars (g :: gs)
        = '"' :: (escChars f ++ '"'
            :: (',' :: (fieldChars g ++ tailChars gs))) := by
      show fieldChars f ++ (',' :: fieldChars g ++ tailChars gs) = _
      simp [fieldChars]
    rw [harr, splitAux_succ, parseQuoted_quote,
      parseEscString_escChars (',' :: (fieldChars g ++ tailChars gs)) f hf]
    show (splitAux m (dropSpaces (fieldChars g ++ tailChars gs))).map
        (fun fs => f :: fs) = some (f :: g :: gs)
    have hds : dropSpaces (fieldChars g ++ tailChars gs)
        = fieldChars g ++ tailChars gs := by
      show dropSpaces ('"' :: (escChars g ++ ['"'] ++ tailChars gs)) = _
      rw [dropSpaces_quote]
      simp [fieldChars]
    rw [hds, ih g (hgs g (List.mem_cons_self g gs))
      (fun x hx => hgs x (List.mem_cons_of_mem g hx)) m
      (by simp only [List.length_cons] at hfuel; omega)]
    rfl

theorem splitAuxPref :
    ∀ (fuel : Nat) (fields : List (List Char)) (f : List Char),
      '\\' ∉ f → (∀ g ∈ fields, '\\' ∉ g) →
      ∀ u, u <+: fieldChars f ++ tailChars fields →
        u ≠ fieldChars f ++ tailChars fields →
        splitAux fuel u = none := by
  intro fuel
  induction fuel with
  | zero => intro fields f hf hfs u hu hne; rfl
  | succ m ih =>
    intro fields f hf hfs u hu hne
    have harr : fieldChars f ++ tailChars fields
        = '"' :: (escChars f ++ '"' :: tailChars fields) := by
      simp [fieldChars]
    rw [harr] at hu hne
    cases u with
    | nil => rw [splitAux_nil]
    | cons x u2 =>
      rw [List.cons_prefix_cons] at hu
      obtain ⟨rfl, hu2⟩ := hu
      rw [splitAux_succ, parseQuoted_quote]
      rcases prefix_append_cases (escChars f) u2 hu2 with hesc | ⟨v, rfl, hv⟩
      · rw [parseEscStringPref f hf u2 hesc]
      · cases v with
        | nil =>
          rw [List.append_nil]
          rw [parseEscStringPref f hf (escChars f) (List.prefix_refl _)]
        | cons y v2 =>
          rw [List.cons_prefix_cons] at hv
          obtain ⟨rfl, hv2⟩ := hv
          rw [parseEscString_escChars v2 f hf]
          cases fields with
          | nil =>
            have hv0 : v2 = [] := by
              cases v2 with
              | nil => rfl
              | cons z v3 =>
                exfalso
                have : tailChars ([] : List (List Char)) = [']'] := rfl
                rw [this, List.cons_prefix_cons] at hv2
                obtain ⟨rfl, hv3⟩ := hv2
                rw [List.prefix_nil.mp hv3] at hne
                exact hne rfl
            subst hv0
            rfl
          | cons g gs =>
            cases v2 with
            | nil => rfl
            | cons z w =>
              have htc : tailChars (g :: gs)
                  = ',' :: (fieldChars g ++ tailChars gs) := by
                simp [tailChars]
              rw [htc, List.cons_prefix_cons] at hv2
              obtain ⟨rfl, hw⟩ := hv2
              show (splitAux m (dropSpaces w)).map (fun fs => f :: fs) = none
              have hwne : w ≠ fieldChars g ++ tailChars gs := by
                intro hcon
                apply hne
                rw [hcon, htc]
              cases w with
              | nil =>
                show (splitAux m (dropSpaces [])).map (fun fs => f :: fs) = none
                have : dropSpaces [] = [] := rfl
                rw [this, splitAux_nil]
                rfl
              | cons a w2 =>
                have hfc : fieldChars g ++ tailChars gs
                    = '"' :: (escChars g ++ '"' :: tailChars gs) := by
                  simp [fieldChars]
                have ha : a = '"' := by
                  rw [hfc, List.cons_prefix_cons] at hw
                  exact hw.1
                subst ha
                rw [dropSpaces_quote]
                rw [ih gs g (hfs g (List.mem_cons_self g gs))
                  (fun x hx => hfs x (List.mem_cons_of_mem g hx))
                  ('"' :: w2) hw hwne]
                rfl

theorem splitModel_data (s : String) :
    splitModel s
      = match s.data with
        | [] => none
        | c :: rest =>
          if c = '[' then
            match rest with
            | [] => none
            | d :: rest2 =>
              if d = ']' then (if rest2 = [] then some [] else none)
              else (splitAux (rest.length + 1) rest).map (List.map String.mk)
          else none := rfl

theorem joinModel_cons_data (f : String) (fs : List String) :
    (joinModel (f :: fs)).data
      = '[' :: (fieldChars f.data ++ tailChars (fs.map String.data)) := rfl

theorem splitModel_join (fields : List String)
    (h : ∀ f ∈ fields, '\\' ∉ f.data) :
    splitModel (joinModel fields) = some fields := by
  cases fields with
  | nil => rfl
  | cons f fs =>
    rw [splitModel_data, joinModel_cons_data]
    show (splitAux
        ((fieldChars f.data ++ tailChars (fs.map String.data)).length + 1)
        (fieldChars f.data ++ tailChars (fs.map String.data))).map
        (List.map String.mk)
      = some (f :: fs)
    have hmem : ∀ g ∈ fs.map String.data, '\\' ∉ g := by
      intro g hg
      obtain ⟨y, hy, rfl⟩ := List.mem_map.mp hg
      exact h y (List.mem_cons_of_mem f hy)
    have hfuel : (fs.map String.data).length + 1
        ≤ (fieldChars f.data ++ tailChars (fs.map String.data)).length + 1 := by
      have := tailChars_length (fs.map String.data)
      simp only [List.length_append, List.length_map] at *
      omega
    rw [splitAux_exact (fs.map String.data) f.data
      (h f (List.mem_cons_self f fs)) hmem _ hfuel]
    have hmk : ∀ s : String, String.mk s.data = s := fun s => rfl
    show some (List.map String.mk (f.data :: List.map String.data fs))
      = some (f :: fs)
    rw [List.map_cons, List.map_map,
      show (String.mk ∘ String.data) = id from funext hmk, List.map_id,
      hmk f]

theorem splitModelPref (fields : List String) (p : String)
    (h : ∀ f ∈ fields, '\\' ∉ f.data)
    (hpre : p.data <+: (joinModel fields).data)
    (hne : p ≠ joinModel fields) :
    splitModel p = none := by
  have hdne : p.data ≠ (joinModel fields).data := by
    intro hc
    exact hne (congrArg String.mk hc)
  rw [splitModel_data]
  cases fields with
  | nil =>
    have hjd : (joinModel ([] : List String)).data = ['[', ']'] := rfl
    rw [hjd] at hpre hdne
    cases hd : p.data with
    | nil => rfl
    | cons c q =>
      rw [hd] at hpre hdne
      rw [List.cons_prefix_cons] at hpre
      obtain ⟨rfl, hq⟩ := hpre
      cases q with
      | nil => rfl
      | cons d q2 =>
        rw [List.cons_prefix_cons] at hq
        obtain ⟨rfl, hq2⟩ := hq
        rw [List.prefix_nil.mp hq2] at hdne
        exact absurd rfl hdne
  | cons f fs =>
    rw [joinModel_cons_data] at hpre hdne
    cases hd : p.data with
    | nil => rfl
    | cons c q =>
      rw [hd] at hpre hdne
      rw [List.cons_prefix_cons] at hpre
      obtain ⟨rfl, hq⟩ := hpre
      cases q with
      | nil => rfl
      | cons d q2 =>
        have hfc : fieldChars f.data ++ tailChars (fs.map String.data)
            = '"' :: (escChars f.data
                ++ '"' :: tailChars (fs.map String.data)) := by
          simp [fieldChars]
        have hd2 : d = '"' := by
          have hq3 := hq
          rw [hfc, List.cons_prefix_cons] at hq3
          exact hq3.1
        subst hd2
        show (splitAux (('"' :: q2).length + 1) ('"' :: q2)).map
            (List.map String.mk) = none
        have hmem : ∀ g ∈ fs.map String.data, '\\' ∉ g := by
          intro g hg
          obtain ⟨y, hy, rfl⟩ := List.mem_map.mp hg
          exact h y (List.mem_cons_of_mem f hy)
        rw [splitAuxPref (('"' :: q2).length + 1) (fs.map String.data)
          f.data (h f (List.mem_cons_self f fs)) hmem ('"' :: q2) hq
          (fun hcon => hdne (by rw [hcon]))]
        rfl

theorem parseCompoundId_str (scheme : ObfuscationScheme) (k : Nat)
    (s : String) :
    parseCompoundId scheme k (.str s)
      = match splitModel (scheme.deobfuscate s) with
        | none => .error (.ObjectWithIdNotFoundException s)
        | some fs =>
          if fs.length = k then .ok fs
          else .error (.ObjectWithIdNotFoundException s) := rfl

/-- C5: the compound-id parser is arity-strict. For any obfuscation codec,
a string that decodes and splits to a field count other than the schema's
raises `ObjectWithIdNotFoundException` (as does a split failure); over the
identity codec, every proper prefix of a valid id string fails `parse`,
the valid id string itself parses back to its fields while the same id
with one extra trailing field fails at the schema's arity; and any
non-string input raises `BadIdentifierException`. Fields are restricted to
backslash-free values, the regime in which the modelled escape codec is
injective. -/
theorem C5_parse_arity :
    (∀ (scheme : ObfuscationScheme) (k : Nat) (s : String),
      (splitModel (scheme.deobfuscate s) = none ∨
        ∃ fs, splitModel (scheme.deobfuscate s) = some fs ∧ fs.length ≠ k) →
      parseCompoundId scheme k (.str s)
        = .error (.ObjectWithIdNotFoundException s)) ∧
    (∀ (fields : List String) (p : String) (k : Nat),
      (∀ f ∈ fields, '\\' ∉ f.data) →
      p.data <+: (joinModel fields).data → p ≠ joinModel fields →
      parseCompoundId idScheme k (.str p)
        = .error (.ObjectWithIdNotFoundException p)) ∧
    (∀ (fields : List String) (x : String),
      (∀ f ∈ fields, '\\' ∉ f.data) → '\\' ∉ x.data →
      parseCompoundId idScheme fields.length (.str (joinModel fields))
          = .ok fields ∧
      parseCompoundId idScheme fields.length
          (.str (joinModel (fields ++ [x])))
        = .error
            (.ObjectWithIdNotFoundException (joinModel (fields ++ [x])))) ∧
    (∀ (scheme : ObfuscationScheme) (k : Nat) (v : PyValue),
      (∀ s, v ≠ .str s) →
      parseCompoundId scheme k v = .error .BadIdentifierException) := by
  refine ⟨?_, ?_, ?_, ?_⟩
  · intro scheme k s h
    rw [parseCompoundId_str]
    rcases h with h | ⟨fs, hfs, hlen⟩
    · rw [h]
    · rw [hfs]
      show (if fs.length = k then Except.ok fs
        else Except.error (GAError.ObjectWithIdNotFoundException s)) = _
      rw [if_neg hlen]
  · intro fields p k h hpre hne
    rw [parseCompoundId_str]
    have hdeob : idScheme.deobfuscate p = p := rfl
    rw [hdeob, splitModelPref fields p h hpre hne]
  · intro fields x h hx
    constructor
    · rw [parseCompoundId_str]
      have hdeob : idScheme.deobfuscate (joinModel fields)
          = joinModel fields := rfl
      rw [hdeob, splitModel_join fields h]
      show (if fields.length = fields.length then Except.ok fields
        else Except.error
          (GAError.ObjectWithIdNotFoundException (joinModel fields))) = _
      rw [if_pos rfl]
    · rw [parseCompoundId_str]
      have hall : ∀ f ∈ fields ++ [x], '\\' ∉ f.data := by
        intro f hf
        rcases List.mem_append.mp hf with h1 | h1
        · exact h f h1
        · rw [List.mem_singleton.mp h1]
          exact hx
      have hdeob : idScheme.deobfuscate (joinModel (fields ++ [x]))
          = joinModel (fields ++ [x]) := rfl
      rw [hdeob, splitModel_join (fields ++ [x]) hall]
      show (if (fields ++ [x]).length = fields.length
        then Except.ok (fields ++ [x])
        else Except.error
          (GAError.ObjectWithIdNotFoundException (joinModel (fields ++ [x])))) = _
      rw [if_neg (by simp)]
  · intro scheme k v h
    cases v with
    | str s => exact absurd rfl (h s)
    | int n => rfl
    | pynone => rfl
    | pylist l => rfl

theorem C5_parse_arity_witness :
    (parseCompoundId idScheme 2 (.str (joinModel ["a", "b"]))
        = .ok ["a", "b"] ∧
      parseCompoundId idScheme 2 (.str (joinModel ["a", "b", "c"]))
        = .error
            (.ObjectWithIdNotFoundException (joinModel ["a", "b", "c"]))) ∧
    parseCompoundId idScheme 2 (.str "[\"a\"")
      = .error (.ObjectWithIdNotFoundException "[\"a\"") :=
  ⟨C5_parse_arity.2.2.1 ["a", "b"] "c" (by decide) (by decide),
    C5_parse_arity.2.1 ["a", "b"] "[\"a\"" 2 (by decide) (by decide)
      (by decide)⟩

end GA4GH